import Mathlib

/-!
# Verification of the OpenFOAM reader core (vtkOpenFOAMReader.cxx)

Shallow embedding, in Lean 4, of the parts of `IO/Geometry/vtkOpenFOAMReader.cxx`
referenced by the specification claims, together with proofs (or refutations)
of those claims.

Conventions used throughout:

* OpenFOAM labels (`vtkTypeInt64`) are modelled as `ℤ`; face/point counts as `ℕ`.
* Scalar (floating point) tuples are modelled over `ℚ`: the claims about them
  concern only component shuffling and exact decimal arithmetic, never rounding.
* Label arrays (`vtkDataArray`) are modelled as functions `ℕ → ℤ` plus explicit
  lengths, matching how the reader accesses them (`GetLabelValue(arr, i)`).
* Imperative loops become structural recursions or folds over the same
  iteration sequence as the C++ loops; early `break`/`return` becomes an
  `Except`/`Option` result or an explicit sentinel, exactly mirroring the code.
-/

/-! ## Symmetric tensor remap (`vtkOpenFOAMReaderPrivate::FillField`, lines 8133-8254)

The reader stores field tuples in `float` buffers; a 6-component (symmTensor)
tuple is remapped in place by `std::swap(tuple[1], tuple[3]); std::swap(tuple[2], tuple[5])`.
`swapTuple i j` is the translation of one `std::swap` on the buffer. -/

def swapTuple (i j : ℕ) (t : List ℚ) : List ℚ :=
  (t.set i (t.getD j 0)).set j (t.getD i 0)

/-- The symmTensor component remap applied by `FillField`:
`swap(tuple[1], tuple[3]); swap(tuple[2], tuple[5])`
(OpenFOAM (XX,XY,XZ,YY,YZ,ZZ) → VTK (XX,YY,ZZ,XY,YZ,XZ)). -/
def remapSymmTensor (t : List ℚ) : List ℚ :=
  swapTuple 2 5 (swapTuple 1 3 t)

/-- The field value shapes `FillField` consumes: a uniform scalar, a uniform
tuple (read as a label or scalar list), a nonuniform tuple list, or an empty
list. -/
inductive FoamFieldValue where
  | uniformScalar (v : ℚ)
  | uniformTuple (t : List ℚ)
  | nonuniform (tuples : List (List ℚ))
  | emptyList
deriving DecidableEq, Repr

/-- Model of `vtkOpenFOAMReaderPrivate::FillField` restricted to the data it
produces (the list of tuples written into the output `vtkFloatArray`).
`none` models the error paths that return `nullptr`.

* uniform scalar: `data->FillValue(num)` over `nElements` values;
* uniform tuple: component-count check, then the 6-component remap is applied
  once to the stack buffer and the tuple is copied to every element;
* nonuniform: tuple-count check, then the remap is applied to every
  6-component tuple in place. -/
def FillField (entry : FoamFieldValue) (nElements : ℕ) (nComponents : ℕ) :
    Option (List (List ℚ)) :=
  match entry with
  | .uniformScalar v => some (List.replicate nElements [v])
  | .uniformTuple t =>
      if t.length = nComponents then
        some (List.replicate nElements (if nComponents = 6 then remapSymmTensor t else t))
      else none
  | .nonuniform ts =>
      if ts.length = nElements then
        some (if nComponents = 6 then ts.map remapSymmTensor else ts)
      else none
  | .emptyList => if nElements = 0 then some [] else none

theorem remapSymmTensor_six (a b c d e f : ℚ) :
    remapSymmTensor [a, b, c, d, e, f] = [a, d, f, b, e, c] := rfl

/-- **C8.** `FillField` applies the `swap(1,3); swap(2,5)` remap to every
6-component tuple it produces — uniform and nonuniform symmTensor fields — and
the remap is an involution on 6-component tuples. -/
theorem FillField_symmTensor_remap :
    (∀ (t : List ℚ) (n : ℕ) (out : List (List ℚ)),
      FillField (.uniformTuple t) n 6 = some out →
        out = List.replicate n (remapSymmTensor t)) ∧
    (∀ (ts : List (List ℚ)) (n : ℕ) (out : List (List ℚ)),
      FillField (.nonuniform ts) n 6 = some out →
        out = ts.map remapSymmTensor) ∧
    (∀ t : List ℚ, t.length = 6 → remapSymmTensor (remapSymmTensor t) = t) := by
  refine ⟨?_, ?_, ?_⟩
  · intro t n out h
    simp only [FillField] at h
    split at h
    · simpa using h.symm
    · exact absurd h (by simp)
  · intro ts n out h
    simp only [FillField] at h
    split at h
    · simpa using h.symm
    · exact absurd h (by simp)
  · intro t ht
    rcases t with _ | ⟨a, t⟩; · simp at ht
    rcases t with _ | ⟨b, t⟩; · simp at ht
    rcases t with _ | ⟨c, t⟩; · simp at ht
    rcases t with _ | ⟨d, t⟩; · simp at ht
    rcases t with _ | ⟨e, t⟩; · simp at ht
    rcases t with _ | ⟨f, t⟩; · simp at ht
    rcases t with _ | ⟨g, t⟩
    · rfl
    · simp at ht

/-- Witness for C8 at a concrete tuple. -/
theorem FillField_symmTensor_remap_witness :
    FillField (.uniformTuple [1, 2, 3, 4, 5, 6]) 2 6 =
        some [[1, 4, 6, 2, 5, 3], [1, 4, 6, 2, 5, 3]] ∧
    ([[1, 4, 6, 2, 5, 3], [1, 4, 6, 2, 5, 3]] : List (List ℚ)) =
        List.replicate 2 (remapSymmTensor [1, 2, 3, 4, 5, 6]) ∧
    remapSymmTensor (remapSymmTensor [1, 2, 3, 4, 5, 6]) = [1, 2, 3, 4, 5, 6] :=
  ⟨rfl,
   (FillField_symmTensor_remap.1 [1, 2, 3, 4, 5, 6] 2 _ rfl).symm,
   FillField_symmTensor_remap.2.2 [1, 2, 3, 4, 5, 6] rfl⟩

/-! ## Dictionary lookup (`vtkFoamDict::Lookup`, lines 3873-3901)

A `vtkFoamDict` either holds entries or has degenerated to a single token
(`Token.GetType() != UNDEFINED`), in which case `Lookup` always returns null.
An entry is identified by its position (insertion order); the model keeps the
keyword list. Regular-expression matching (`vtksys::RegularExpression`) lives
outside this repository, so it is abstracted as a predicate `m key kw`
modelling "`key` compiles as a regex and matches all of `kw`"
(`rex.compile(key) && rex.find(keyword) && rex.start(0) == 0 && rex.end(0) == keyword.size()`). -/

structure vtkFoamDict where
  tokenDegenerate : Bool
  keywords : List String

/-- The `for` loop of `vtkFoamDict::Lookup`: `i` is the index of the head of
`ks` in the full keyword list, `lastMatch` the last regex match seen so far
(`-1` encoded as `none`). -/
def lookupLoop (kw : String) (regex : Bool) (m : String → String → Bool) :
    List String → ℕ → Option ℕ → Option ℕ
  | [], _, lastMatch => lastMatch
  | key :: rest, i, lastMatch =>
    if key = kw then some i
    else if regex && m key kw then lookupLoop kw regex m rest (i + 1) (some i)
    else lookupLoop kw regex m rest (i + 1) lastMatch

/-- Model of `vtkFoamDict::Lookup`, returning the index of the found entry. -/
def vtkFoamDict.Lookup (d : vtkFoamDict) (kw : String) (regex : Bool)
    (m : String → String → Bool) : Option ℕ :=
  if d.tokenDegenerate then none
  else lookupLoop kw regex m d.keywords 0 none

/-- `i` is the first position of `ks` holding exactly `kw`. -/
def IsFirstExact (ks : List String) (kw : String) (i : ℕ) : Prop :=
  ks[i]? = some kw ∧ ∀ j, j < i → ks[j]? ≠ some kw

/-- `i` is the last position of `ks` whose keyword regex-matches all of `kw`. -/
def IsLastRegexMatch (m : String → String → Bool) (ks : List String) (kw : String)
    (i : ℕ) : Prop :=
  (∃ key, ks[i]? = some key ∧ m key kw = true) ∧
    ∀ j key, i < j → ks[j]? = some key → m key kw = false

lemma lookupLoop_first_exact (kw : String) (regex : Bool) (m : String → String → Bool) :
    ∀ (ks : List String) (i₀ : ℕ) (acc : Option ℕ) (j : ℕ),
      ks[j]? = some kw → (∀ j', j' < j → ks[j']? ≠ some kw) →
      lookupLoop kw regex m ks i₀ acc = some (i₀ + j)
  | [], _, _, j, hj, _ => by simp at hj
  | key :: rest, i₀, acc, 0, hj, _ => by
      simp at hj
      simp [lookupLoop, hj]
  | key :: rest, i₀, acc, j + 1, hj, hfirst => by
      have hkey : ¬(key = kw) := by
        intro h
        exact hfirst 0 (Nat.succ_pos j) (by simp [h])
      have hrest : rest[j]? = some kw := by simpa using hj
      have hfirst' : ∀ j', j' < j → rest[j']? ≠ some kw := by
        intro j' hj' h
        exact hfirst (j' + 1) (Nat.succ_lt_succ hj') (by simpa using h)
      have ih := lookupLoop_first_exact kw regex m rest (i₀ + 1) (some i₀) j hrest hfirst'
      have ih' := lookupLoop_first_exact kw regex m rest (i₀ + 1) acc j hrest hfirst'
      simp only [lookupLoop, if_neg hkey]
      split
      · rw [ih]; congr 1; omega
      · rw [ih']; congr 1; omega

lemma lookupLoop_none (kw : String) (regex : Bool) (m : String → String → Bool) :
    ∀ (ks : List String) (i₀ : ℕ) (acc : Option ℕ),
      (∀ key ∈ ks, key ≠ kw) →
      (regex = false ∨ ∀ key ∈ ks, m key kw = false) →
      lookupLoop kw regex m ks i₀ acc = acc
  | [], _, _, _, _ => rfl
  | key :: rest, i₀, acc, hne, hm => by
      have hkey : ¬(key = kw) := hne key (by simp)
      have hstep : ¬(regex && m key kw) = true := by
        rcases hm with h | h
        · simp [h]
        · simp [h key (by simp)]
      simp only [lookupLoop, if_neg hkey, if_neg hstep]
      refine lookupLoop_none kw regex m rest (i₀ + 1) acc ?_ ?_
      · intro k hk; exact hne k (by simp [hk])
      · rcases hm with h | h
        · exact Or.inl h
        · exact Or.inr fun k hk => h k (by simp [hk])

lemma lookupLoop_last_regex (kw : String) (m : String → String → Bool) :
    ∀ (ks : List String) (i₀ : ℕ) (acc : Option ℕ) (j : ℕ),
      (∀ key ∈ ks, key ≠ kw) →
      (∃ key, ks[j]? = some key ∧ m key kw = true) →
      (∀ j' key, j < j' → ks[j']? = some key → m key kw = false) →
      lookupLoop kw true m ks i₀ acc = some (i₀ + j)
  | [], _, _, j, _, hj, _ => by
      obtain ⟨key, hk, _⟩ := hj
      simp at hk
  | key :: rest, i₀, acc, 0, hne, hj, hlast => by
      obtain ⟨key', hk, hm⟩ := hj
      have hk' : key' = key := by simpa using hk.symm
      rw [hk'] at hm
      have hkey : ¬(key = kw) := hne key (by simp)
      have hrest_none : ∀ k ∈ rest, m k kw = false := by
        intro k hk
        obtain ⟨j', hj'⟩ := List.get_of_mem hk
        refine hlast (j' + 1) k (Nat.succ_pos j') ?_
        simp [hj'.symm]
      simp only [lookupLoop, if_neg hkey, hm, Bool.and_self, if_pos rfl]
      rw [lookupLoop_none kw true m rest (i₀ + 1) (some i₀) (fun k hk => hne k (by simp [hk]))
        (Or.inr hrest_none)]
      simp
  | key :: rest, i₀, acc, j + 1, hne, hj, hlast => by
      have hkey : ¬(key = kw) := hne key (by simp)
      obtain ⟨key', hk, hm⟩ := hj
      have hrest : rest[j]? = some key' := by simpa using hk
      have hne' : ∀ k ∈ rest, k ≠ kw := fun k hk => hne k (by simp [hk])
      have hlast' : ∀ j' k, j < j' → rest[j']? = some k → m k kw = false := by
        intro j' k hj' h
        exact hlast (j' + 1) k (Nat.succ_lt_succ hj') (by simpa using h)
      have ih := fun acc' =>
        lookupLoop_last_regex kw m rest (i₀ + 1) acc' j hne' ⟨key', hrest, hm⟩ hlast'
      simp only [lookupLoop, if_neg hkey]
      split
      · rw [ih (some i₀)]; congr 1; omega
      · rw [ih acc]; congr 1; omega

/-- **C9.** `vtkFoamDict::Lookup` returns the first exact keyword match; with
no exact match and regex mode on, the last full regex match wins; otherwise
(including the single-token degenerate dictionary) it returns null. -/
theorem vtkFoamDict_Lookup_spec (d : vtkFoamDict) (kw : String) (regex : Bool)
    (m : String → String → Bool) :
    (d.tokenDegenerate = true → d.Lookup kw regex m = none) ∧
    (d.tokenDegenerate = false →
      ∀ i, IsFirstExact d.keywords kw i → d.Lookup kw regex m = some i) ∧
    (d.tokenDegenerate = false → (∀ key ∈ d.keywords, key ≠ kw) →
      ∀ i, IsLastRegexMatch m d.keywords kw i → d.Lookup kw true m = some i) ∧
    (d.tokenDegenerate = false → (∀ key ∈ d.keywords, key ≠ kw) →
      (regex = false ∨ ∀ key ∈ d.keywords, m key kw = false) →
      d.Lookup kw regex m = none) := by
  refine ⟨?_, ?_, ?_, ?_⟩
  · intro h; simp [vtkFoamDict.Lookup, h]
  · intro h i ⟨hi, hfirst⟩
    simpa [vtkFoamDict.Lookup, h] using
      lookupLoop_first_exact kw regex m d.keywords 0 none i hi hfirst
  · intro h hne i ⟨hi, hlast⟩
    simpa [vtkFoamDict.Lookup, h] using
      lookupLoop_last_regex kw m d.keywords 0 none i hne hi hlast
  · intro h hne hm
    simpa [vtkFoamDict.Lookup, h] using
      lookupLoop_none kw regex m d.keywords 0 none hne hm

/-- Witness for C9 on a concrete dictionary: exact match first, and the
last of two regex matches wins when no exact match exists. -/
theorem vtkFoamDict_Lookup_spec_witness :
    (vtkFoamDict.Lookup ⟨false, ["alpha", "beta", "alpha"]⟩ "beta" false
        (fun _ _ => false) = some 1) ∧
    (vtkFoamDict.Lookup ⟨false, ["a.*", "gamma", "al.*"]⟩ "alpha" true
        (fun key _ => key = "a.*" || key = "al.*") = some 2) ∧
    (vtkFoamDict.Lookup ⟨true, ["alpha"]⟩ "alpha" false (fun _ _ => false) = none) := by
  refine ⟨?_, ?_, ?_⟩
  · exact (vtkFoamDict_Lookup_spec ⟨false, ["alpha", "beta", "alpha"]⟩ "beta" false
      (fun _ _ => false)).2.1 rfl 1 ⟨rfl, by decide⟩
  · exact (vtkFoamDict_Lookup_spec ⟨false, ["a.*", "gamma", "al.*"]⟩ "alpha" true
      (fun key _ => key = "a.*" || key = "al.*")).2.2.1 rfl (by decide) 2
      ⟨⟨"al.*", rfl, by decide⟩, by
        intro j key hj h
        rw [List.getElem?_eq_none (by simpa using hj)] at h
        exact Option.noConfusion h⟩
  · exact (vtkFoamDict_Lookup_spec ⟨true, ["alpha"]⟩ "alpha" false
      (fun _ _ => false)).1 rfl

/-! ## Boundary patches (`vtkFoamBoundaries::update`, lines 5363-5484, and
`vtkFoamBoundaries::whichPatch`, lines 5489-5520)

A patch dictionary entry is modelled by the entries `update` looks up:
`type`, `startFace`, `nFaces` (absent entry = `Lookup` returned null),
plus the processor-only `myProcNo`/`neighbProcNo`. The `inGroups` bookkeeping
only fills a side table and cannot affect success, so it is omitted. -/

structure PatchDictEntry where
  typeName : Option String
  startFace : Option ℤ
  nFaces : Option ℤ
  myProcNo : Option ℤ
  neighbProcNo : Option ℤ
deriving DecidableEq, Repr

inductive PatchType where
  | GEOMETRICAL
  | PHYSICAL
  | PROCESSOR
deriving DecidableEq, Repr

structure vtkFoamPatch where
  name : String
  index : ℤ
  start : ℤ
  size : ℤ
  type : PatchType
  owner : Bool
  offset : ℤ
deriving DecidableEq, Repr

def vtkFoamPatch.startFace (p : vtkFoamPatch) : ℤ := p.start

def vtkFoamPatch.endFace (p : vtkFoamPatch) : ℤ := p.start + p.size

/-- The body of `vtkFoamBoundaries::update`'s patch loop, one recursive step
per `patchi`. State: `patchi` (loop index), `endFace` (previous patch's end
face, `-1` before the first patch), `nBoundaryFaces`. Returns `none` where the
C++ reports an error and returns false. -/
def boundariesUpdateLoop :
    List (String × PatchDictEntry) → ℤ → ℤ → ℤ → Option (List vtkFoamPatch)
  | [], _, _, _ => some []
  | (patchName, pd) :: rest, patchi, endFace, nBoundaryFaces =>
    match pd.typeName with
    | none => none
    | some patchTypeName =>
      match pd.startFace with
      | none => none
      | some start =>
        match pd.nFaces with
        | none => none
        | some size =>
          if start < 0 ∨ size < 0 then none
          else if 0 ≤ endFace ∧ endFace ≠ start then none
          else
            let ptype :=
              if patchTypeName = "patch" ∨ patchTypeName = "wall" ∨
                  patchTypeName = "mappedWall" then PatchType.PHYSICAL
              else if patchTypeName = "processor" ∨ patchTypeName = "processorCyclic" then
                PatchType.PROCESSOR
              else PatchType.GEOMETRICAL
            let owner :=
              if ptype = PatchType.PROCESSOR then
                match pd.myProcNo, pd.neighbProcNo with
                | some own, some nei => decide (own < nei)
                | _, _ => true
              else true
            let nBoundaryFaces' :=
              if ptype = PatchType.PHYSICAL ∨ ptype = PatchType.PROCESSOR then
                nBoundaryFaces + size
              else nBoundaryFaces
            (boundariesUpdateLoop rest (patchi + 1) (start + size) nBoundaryFaces').map
              (fun ps => ⟨patchName, patchi, start, size, ptype, owner, nBoundaryFaces⟩ :: ps)

/-- Model of `vtkFoamBoundaries::update`: validated patch list, or `none` on
error (the C++ returns `false` after `clearAll()`, leaving no collection). -/
def vtkFoamBoundaries.update (dict : List (String × PatchDictEntry)) :
    Option (List vtkFoamPatch) :=
  boundariesUpdateLoop dict 0 (-1) 0

/-- Field of a patch dictionary as `ToInt` would produce it (only meaningful
when the entry is present). -/
def patchStartOf (pd : PatchDictEntry) : ℤ := pd.startFace.getD 0

def patchSizeOf (pd : PatchDictEntry) : ℤ := pd.nFaces.getD 0

/-- A patch dictionary provides `type`, `startFace`, `nFaces`, the latter two
non-negative. -/
def PatchEntryValid (pd : PatchDictEntry) : Prop :=
  pd.typeName.isSome = true ∧ pd.startFace.isSome = true ∧ pd.nFaces.isSome = true ∧
    0 ≤ patchStartOf pd ∧ 0 ≤ patchSizeOf pd

instance (pd : PatchDictEntry) : Decidable (PatchEntryValid pd) := by
  unfold PatchEntryValid; infer_instance

/-- Contiguity condition the claim states for consecutive patch dictionaries. -/
def PatchContiguity (a b : String × PatchDictEntry) : Prop :=
  patchStartOf a.2 + patchSizeOf a.2 = patchStartOf b.2

/-- The contiguity state as the loop threads it: the incoming `endFace` must
match the first patch's start (unless it is the initial `-1` sentinel), and so
on down the list. -/
def ContiguousFrom : ℤ → List (String × PatchDictEntry) → Prop
  | _, [] => True
  | e, a :: rest =>
    (0 ≤ e → e = patchStartOf a.2) ∧ ContiguousFrom (patchStartOf a.2 + patchSizeOf a.2) rest

lemma optionIsSomeMap {α β : Type _} (f : α → β) (o : Option α) :
    (o.map f).isSome = o.isSome := by cases o <;> rfl

lemma boundariesUpdateLoop_isSome :
    ∀ (d : List (String × PatchDictEntry)) (patchi endFace nBF : ℤ),
      (boundariesUpdateLoop d patchi endFace nBF).isSome ↔
        ((∀ e ∈ d, PatchEntryValid e.2) ∧ ContiguousFrom endFace d)
  | [], _, _, _ => by simp [boundariesUpdateLoop, ContiguousFrom]
  | (patchName, pd) :: rest, patchi, endFace, nBF => by
    cases htype : pd.typeName with
    | none =>
      simp only [boundariesUpdateLoop, htype, Option.isSome_none, Bool.false_eq_true, false_iff]
      intro ⟨h, _⟩
      exact absurd (h (patchName, pd) (by simp)).1 (by simp [htype])
    | some tn =>
      cases hstart : pd.startFace with
      | none =>
        simp only [boundariesUpdateLoop, htype, hstart, Option.isSome_none,
          Bool.false_eq_true, false_iff]
        intro ⟨h, _⟩
        exact absurd (h (patchName, pd) (by simp)).2.1 (by simp [hstart])
      | some start =>
        cases hsize : pd.nFaces with
        | none =>
          simp only [boundariesUpdateLoop, htype, hstart, hsize, Option.isSome_none,
            Bool.false_eq_true, false_iff]
          intro ⟨h, _⟩
          exact absurd (h (patchName, pd) (by simp)).2.2.1 (by simp [hsize])
        | some size =>
          simp only [boundariesUpdateLoop, htype, hstart, hsize]
          by_cases hneg : start < 0 ∨ size < 0
          · simp only [if_pos hneg, Option.isSome_none, Bool.false_eq_true, false_iff]
            intro ⟨h, _⟩
            have := (h (patchName, pd) (by simp)).2.2.2
            simp [patchStartOf, patchSizeOf, hstart, hsize] at this
            omega
          · simp only [if_neg hneg]
            by_cases hcont : 0 ≤ endFace ∧ endFace ≠ start
            · simp only [if_pos hcont, Option.isSome_none, Bool.false_eq_true, false_iff]
              intro ⟨_, hc⟩
              simp only [ContiguousFrom, patchStartOf, hstart, Option.getD_some] at hc
              exact hcont.2 (hc.1 hcont.1)
            · rw [if_neg hcont, optionIsSomeMap,
                boundariesUpdateLoop_isSome rest (patchi + 1) (start + size) _]
              have hunfold : ContiguousFrom endFace ((patchName, pd) :: rest) ↔
                  ((0 ≤ endFace → endFace = start) ∧ ContiguousFrom (start + size) rest) := by
                simp [ContiguousFrom, patchStartOf, patchSizeOf, hstart, hsize]
              rw [hunfold]
              constructor
              · intro ⟨hval, hc⟩
                refine ⟨?_, ?_, hc⟩
                · intro e he
                  rcases List.mem_cons.mp he with he | he
                  · subst he
                    refine ⟨by simp [htype], by simp [hstart], by simp [hsize], ?_, ?_⟩ <;>
                      simp only [patchStartOf, patchSizeOf, hstart, hsize, Option.getD_some] <;>
                      omega
                  · exact hval e he
                · intro he
                  by_contra hne
                  exact hcont ⟨he, hne⟩
              · intro ⟨hval, hc⟩
                exact ⟨fun e he => hval e (List.mem_cons_of_mem _ he), hc.2⟩

lemma contiguousFrom_of_valid :
    ∀ (d : List (String × PatchDictEntry)) (e : ℤ),
      (∀ x ∈ d, PatchEntryValid x.2) → 0 ≤ e →
      (ContiguousFrom e d ↔
        ((d.headD ("", ⟨none, none, none, none, none⟩)).2.startFace.getD 0 = e ∨ d = []) ∧
          List.Chain' PatchContiguity d)
  | [], e, _, _ => by simp [ContiguousFrom]
  | a :: rest, e, hval, he => by
    have hsz : 0 ≤ patchSizeOf a.2 := (hval a (by simp)).2.2.2.2
    have hst : 0 ≤ patchStartOf a.2 := (hval a (by simp)).2.2.2.1
    have ih := contiguousFrom_of_valid rest (patchStartOf a.2 + patchSizeOf a.2)
      (fun x hx => hval x (by simp [hx])) (by omega)
    cases rest with
    | nil =>
      simp [ContiguousFrom, he, patchStartOf]
      constructor
      · intro h; exact h.symm
      · intro h; exact h.symm
    | cons b rest' =>
      simp only [ContiguousFrom] at ih ⊢
      rw [ih]
      simp only [List.chain'_cons, List.headD_cons]
      constructor
      · intro ⟨h1, h2, h3⟩
        rcases h2 with h2 | h2
        · exact ⟨Or.inl (h1 he).symm, by simpa [PatchContiguity, patchStartOf] using h2.symm, h3⟩
        · exact absurd h2 (by simp)
      · intro ⟨h1, h2, h3⟩
        rcases h1 with h1 | h1
        · refine ⟨fun _ => h1.symm, Or.inl ?_, h3⟩
          simpa [PatchContiguity, patchStartOf] using h2.symm
        · exact absurd h1 (by simp)

/-- **C3.** `vtkFoamBoundaries::update` succeeds exactly when every patch
dictionary provides `type`, `startFace` and `nFaces` with the two numbers
non-negative, and consecutive patches are strictly contiguous
(`p[i].start + p[i].size == p[i+1].start`); otherwise it errors and returns
no boundary collection. -/
theorem vtkFoamBoundaries_update_spec (dict : List (String × PatchDictEntry)) :
    (vtkFoamBoundaries.update dict).isSome ↔
      ((∀ e ∈ dict, PatchEntryValid e.2) ∧ List.Chain' PatchContiguity dict) := by
  rw [vtkFoamBoundaries.update, boundariesUpdateLoop_isSome]
  constructor
  · intro ⟨hval, hc⟩
    refine ⟨hval, ?_⟩
    cases dict with
    | nil => simp
    | cons a rest =>
      simp only [ContiguousFrom] at hc
      have hsz : 0 ≤ patchSizeOf a.2 := (hval a (by simp)).2.2.2.2
      have hst : 0 ≤ patchStartOf a.2 := (hval a (by simp)).2.2.2.1
      have := (contiguousFrom_of_valid rest (patchStartOf a.2 + patchSizeOf a.2)
        (fun x hx => hval x (by simp [hx])) (by omega)).mp hc.2
      cases rest with
      | nil => simp
      | cons b rest' =>
        rw [List.chain'_cons]
        refine ⟨?_, this.2⟩
        rcases this.1 with h | h
        · simpa [PatchContiguity, patchStartOf] using h.symm
        · exact absurd h (by simp)
  · intro ⟨hval, hc⟩
    refine ⟨hval, ?_⟩
    cases dict with
    | nil => simp [ContiguousFrom]
    | cons a rest =>
      simp only [ContiguousFrom]
      refine ⟨by intro h; omega, ?_⟩
      have hsz : 0 ≤ patchSizeOf a.2 := (hval a (by simp)).2.2.2.2
      have hst : 0 ≤ patchStartOf a.2 := (hval a (by simp)).2.2.2.1
      rw [contiguousFrom_of_valid rest (patchStartOf a.2 + patchSizeOf a.2)
        (fun x hx => hval x (by simp [hx])) (by omega)]
      cases rest with
      | nil => simp
      | cons b rest' =>
        rw [List.chain'_cons] at hc
        exact ⟨Or.inl (by simpa [PatchContiguity, patchStartOf] using hc.1.symm), hc.2⟩

/-- The two boundary files of spec Scenario 3. -/
def scenarioBoundaryOk : List (String × PatchDictEntry) :=
  [("inlet", ⟨some "patch", some 0, some 10, none, none⟩),
   ("outlet", ⟨some "patch", some 10, some 5, none, none⟩)]

def scenarioBoundaryGap : List (String × PatchDictEntry) :=
  [("inlet", ⟨some "patch", some 0, some 10, none, none⟩),
   ("outlet", ⟨some "patch", some 11, some 5, none, none⟩)]

/-- Witness for C3: `{start:0,size:10},{start:10,size:5}` validates, while
`{start:0,size:10},{start:11,size:5}` is rejected. -/
theorem vtkFoamBoundaries_update_spec_witness :
    (vtkFoamBoundaries.update scenarioBoundaryOk).isSome = true ∧
    (vtkFoamBoundaries.update scenarioBoundaryGap).isSome = false := by
  constructor
  · exact (vtkFoamBoundaries_update_spec scenarioBoundaryOk).mpr
      ⟨by
        intro e he
        fin_cases he <;>
          exact ⟨rfl, rfl, rfl, by norm_num [patchStartOf], by norm_num [patchSizeOf]⟩,
       by
        simp only [scenarioBoundaryOk]
        refine List.chain'_cons.mpr ⟨?_, ?_⟩
        · norm_num [PatchContiguity, patchStartOf, patchSizeOf]
        · exact List.chain'_singleton _⟩
  · rw [Bool.eq_false_iff]
    intro h
    have hc := ((vtkFoamBoundaries_update_spec scenarioBoundaryGap).mp h).2
    simp only [scenarioBoundaryGap] at hc
    have h2 := (List.chain'_cons.mp hc).1
    norm_num [PatchContiguity, patchStartOf, patchSizeOf] at h2

/-! ### `vtkFoamBoundaries::whichPatch` (lines 5489-5520)

Source contract (declaration line 732-733 and definition comment lines
5487-5488): "The patch index for a given face label, -1 for internal face or
out-of-bounds". The binary-search loop is translated with an explicit fuel
argument equal to the initial `count`; since `count` strictly decreases on
every iteration and never exceeds the fuel, the fuel-exhausted branch is
unreachable. -/

def dummyPatch : vtkFoamPatch :=
  ⟨"", -1, 0, 0, PatchType.GEOMETRICAL, true, 0⟩

/-- The `while (count > 0)` loop of `whichPatch`, with `first` an index into
the patch list. -/
def whichPatchLoop (ps : List vtkFoamPatch) (faceIndex : ℤ) :
    ℕ → ℕ → ℕ → ℕ
  | 0, first, _ => first
  | fuel + 1, first, count =>
    if count = 0 then first
    else
      let step := count / 2
      let iter := first + step
      if (ps.getD iter dummyPatch).start ≤ faceIndex then
        whichPatchLoop ps faceIndex fuel (iter + 1) (count - step - 1)
      else
        whichPatchLoop ps faceIndex fuel first step

/-- Model of `vtkFoamBoundaries::whichPatch`. -/
def vtkFoamBoundaries.whichPatch (ps : List vtkFoamPatch) (faceIndex : ℤ) : ℤ :=
  if ps.isEmpty ∨ faceIndex < (ps.headD dummyPatch).startFace ∨
      (ps.getLastD dummyPatch).endFace ≤ faceIndex then
    -1
  else
    let first := whichPatchLoop ps faceIndex ps.length 0 ps.length
    if first ≠ ps.length then (ps.getD first dummyPatch).index else -1

/-- The validated boundary collection of spec Scenario 3, as
`vtkFoamBoundaries::update` builds it. -/
def scenarioPatches : List vtkFoamPatch :=
  [⟨"inlet", 0, 0, 10, PatchType.PHYSICAL, true, 0⟩,
   ⟨"outlet", 1, 10, 5, PatchType.PHYSICAL, true, 10⟩]

theorem scenarioPatches_from_update :
    vtkFoamBoundaries.update scenarioBoundaryOk = some scenarioPatches := by decide

/-- C4 failing-input evaluation: on the validated two-patch collection
`{start:0,size:10},{start:10,size:5}`, face 3 lies in patch 0 and face 12 in
patch 1, but `whichPatch` returns 1 and -1 respectively: the loop compares
`iter->start_` with `faceIndex` and so computes the first patch whose start
face lies beyond `faceIndex`, not the patch containing it. -/
theorem whichPatch_wrong_patch :
    vtkFoamBoundaries.whichPatch scenarioPatches 3 = 1 ∧
    vtkFoamBoundaries.whichPatch scenarioPatches 12 = -1 ∧
    (0:ℤ) ≤ 3 ∧ (3:ℤ) < 0 + 10 ∧
    (10:ℤ) ≤ 12 ∧ (12:ℤ) < 10 + 5 := by decide

/-! ## Hand-rolled numeric parsing (`vtkFoamFile::ReadIntValue`, lines 2501-2561,
and `vtkFoamFile::ReadFloatValue`, lines 2566-2695)

The byte stream is a `List Char`; `Getc` is pattern matching on the head and
`PutBack` leaves the character at the head of the returned remainder. EOF is
the empty list. The `/`-dispatch into `NextTokenHead` (comment skipping before
a literal) is outside the numeric claims and is modelled as an explicit error
branch. 64-bit signed accumulation (`vtkTypeInt64 num`) is modelled exactly
with two's-complement wrap-around `wrap64`; the claims' "fits a signed 64-bit
integer" hypothesis makes the wrap the identity along the whole run. -/

def isSpaceChar (c : Char) : Bool :=
  c = ' ' || c = '\t' || c = '\n' || c = '\r' || c = Char.ofNat 11 || c = Char.ofNat 12

def isDigitChar (c : Char) : Bool :=
  48 ≤ c.toNat && c.toNat ≤ 57

def digitVal (c : Char) : ℤ :=
  (c.toNat : ℤ) - 48

def digitChar (d : ℕ) : Char :=
  Char.ofNat (48 + d)

/-- Value of a written digit string, most significant digit first. -/
def digitsVal (ds : List ℕ) : ℕ :=
  ds.foldl (fun a d => 10 * a + d) 0

/-- `while (isspace(c = this->Getc()))` (the line-counting side effect has no
bearing on the value read). -/
def skipSpaces : List Char → List Char
  | [] => []
  | c :: rest => if isSpaceChar c then skipSpaces rest else c :: rest

/-- Two's-complement wrap of 64-bit signed arithmetic. -/
def wrap64 (x : ℤ) : ℤ :=
  (x + 2 ^ 63) % 2 ^ 64 - 2 ^ 63

/-- `while (isdigit(c = this->Getc())) { num = 10 * num + c - '0'; }` followed
by the EOF check and `PutBack(c)`. -/
def intLoop : ℤ → List Char → Except String (ℤ × List Char)
  | _, [] => .error "ReadIntValue: unexpected EOF"
  | num, c :: rest =>
    if isDigitChar c then intLoop (wrap64 (10 * num + digitVal c)) rest
    else .ok (num, c :: rest)

/-- The digit-consuming tail of `ReadIntValue` once the sign is resolved:
`if (!isdigit(c)) throw; num = c - '0'; <loop>; return negNum ? -num : num`. -/
def readIntDigits (neg : Bool) (c : Char) (s : List Char) :
    Except String (ℤ × List Char) :=
  if isDigitChar c then
    (intLoop (digitVal c) s).map fun p => (if neg then -p.1 else p.1, p.2)
  else .error "ReadIntValue: expected digit"

/-- Model of `vtkFoamFile::ReadIntValue`. -/
def ReadIntValue (s : List Char) : Except String (ℤ × List Char) :=
  match skipSpaces s with
  | [] => .error "ReadIntValue: unexpected EOF"
  | c :: rest =>
    if c = '/' then .error "ReadIntValue: comment dispatch not modelled"
    else if c = '-' ∨ c = '+' then
      match rest with
      | [] => .error "ReadIntValue: unexpected EOF"
      | c2 :: rest2 => readIntDigits (c == '-') c2 rest2
    else readIntDigits false c rest

lemma digitChar_toNat {d : ℕ} (h : d < 10) : (digitChar d).toNat = 48 + d := by
  interval_cases d <;> decide

lemma isDigitChar_digitChar {d : ℕ} (h : d < 10) : isDigitChar (digitChar d) = true := by
  simp only [isDigitChar, digitChar_toNat h, Bool.and_eq_true, decide_eq_true_eq]
  omega

lemma digitVal_digitChar {d : ℕ} (h : d < 10) : digitVal (digitChar d) = d := by
  simp [digitVal, digitChar_toNat h]

lemma wrap64_eq_self {x : ℤ} (h0 : 0 ≤ x) (h1 : x < 2 ^ 63) : wrap64 x = x := by
  unfold wrap64
  rw [Int.emod_eq_of_lt (by omega) (by norm_num; omega)]
  omega

/-- `digitsVal` transported to the `ℤ` accumulator the loops use. -/
def digitsFoldZ (acc : ℤ) : List ℕ → ℤ
  | [] => acc
  | d :: ds => digitsFoldZ (10 * acc + (d : ℤ)) ds

lemma foldl_digits_ge (ds : List ℕ) :
    ∀ a : ℤ, 0 ≤ a → a ≤ digitsFoldZ a ds := by
  induction ds with
  | nil => intro a _; exact le_refl a
  | cons d rest ih =>
    intro a ha
    have h1 : a ≤ 10 * a + (d : ℤ) := by omega
    exact le_trans h1 (ih _ (by omega))

lemma digitsVal_cast (ds : List ℕ) :
    ∀ a : ℕ, ((ds.foldl (fun x d => 10 * x + d) a : ℕ) : ℤ) = digitsFoldZ (a : ℤ) ds := by
  induction ds with
  | nil => intro a; rfl
  | cons d rest ih =>
    intro a
    simp only [List.foldl_cons, digitsFoldZ]
    rw [ih (10 * a + d)]
    push_cast
    rfl

lemma digitsVal_eq_digitsFoldZ (ds : List ℕ) :
    (digitsVal ds : ℤ) = digitsFoldZ 0 ds := by
  simpa using digitsVal_cast ds 0

lemma intLoop_spec (delim : Char) (hdelim : isDigitChar delim = false) :
    ∀ (ds : List ℕ) (acc : ℤ) (rest : List Char),
      (∀ d ∈ ds, d < 10) → 0 ≤ acc →
      digitsFoldZ acc ds < 2 ^ 63 →
      intLoop acc (ds.map digitChar ++ delim :: rest) =
        .ok (digitsFoldZ acc ds, delim :: rest)
  | [], acc, rest, _, _, _ => by
      simp [intLoop, hdelim, digitsFoldZ]
  | d :: ds, acc, rest, hds, hacc, hbound => by
      have hd : d < 10 := hds d (by simp)
      have hstep0 : (0:ℤ) ≤ 10 * acc + (d : ℤ) := by omega
      simp only [digitsFoldZ] at hbound
      have hmono := foldl_digits_ge ds (10 * acc + (d : ℤ)) hstep0
      have hstep1 : 10 * acc + (d : ℤ) < 2 ^ 63 := lt_of_le_of_lt hmono hbound
      simp only [List.map_cons, List.cons_append, intLoop, isDigitChar_digitChar hd,
        if_pos rfl, digitVal_digitChar hd, wrap64_eq_self hstep0 hstep1, digitsFoldZ]
      exact intLoop_spec delim hdelim ds (10 * acc + (d : ℤ)) rest
        (fun x hx => hds x (by simp [hx])) hstep0 hbound

/-- Optional leading sign: `none` = no sign character, `some false` = `'+'`,
`some true` = `'-'`. -/
def signPrefix : Option Bool → List Char
  | none => []
  | some false => ['+']
  | some true => ['-']

def signFactorZ : Option Bool → ℤ
  | some true => -1
  | _ => 1

lemma digitChar_head_facts {d : ℕ} (h : d < 10) :
    isSpaceChar (digitChar d) = false ∧ digitChar d ≠ '/' ∧ digitChar d ≠ '-' ∧
      digitChar d ≠ '+' ∧ digitChar d ≠ '.' ∧ digitChar d ≠ 'e' ∧ digitChar d ≠ 'E' := by
  interval_cases d <;> decide

lemma digitsFoldZ_cons_zero (d : ℕ) (ds : List ℕ) :
    digitsFoldZ 0 (d :: ds) = digitsFoldZ (d : ℤ) ds := by
  simp [digitsFoldZ]

lemma readIntDigits_spec (neg : Bool) (d0 : ℕ) (ds : List ℕ) (delim : Char)
    (rest : List Char) (hd0 : d0 < 10) (hds : ∀ d ∈ ds, d < 10)
    (hbound : (digitsVal (d0 :: ds) : ℤ) < 2 ^ 63) (hdelim : isDigitChar delim = false) :
    readIntDigits neg (digitChar d0) (ds.map digitChar ++ delim :: rest) =
      .ok ((if neg then -(digitsVal (d0 :: ds) : ℤ) else (digitsVal (d0 :: ds) : ℤ)),
        delim :: rest) := by
  have hfold : (digitsVal (d0 :: ds) : ℤ) = digitsFoldZ (d0 : ℤ) ds := by
    rw [digitsVal_eq_digitsFoldZ, digitsFoldZ_cons_zero]
  rw [hfold] at hbound ⊢
  simp only [readIntDigits, isDigitChar_digitChar hd0, if_pos rfl, digitVal_digitChar hd0,
    intLoop_spec delim hdelim ds (d0 : ℤ) rest hds (by positivity) hbound]
  rfl

lemma ReadIntValue_eval_digit (c : Char) (s : List Char) (h1 : isSpaceChar c = false)
    (h2 : c ≠ '/') (h3 : ¬(c = '-' ∨ c = '+')) :
    ReadIntValue (c :: s) = readIntDigits false c s := by
  simp only [ReadIntValue, skipSpaces, h1, Bool.false_eq_true, if_false, if_neg h2, if_neg h3]

lemma ReadIntValue_eval_sign (c c2 : Char) (s : List Char) (h1 : isSpaceChar c = false)
    (h2 : c ≠ '/') (h3 : c = '-' ∨ c = '+') :
    ReadIntValue (c :: c2 :: s) = readIntDigits (c == '-') c2 s := by
  simp only [ReadIntValue, skipSpaces, h1, Bool.false_eq_true, if_false, if_neg h2, if_pos h3]

/-- **Round-trip for `ReadIntValue`** (first half of C10): a decimal literal
with optional sign whose magnitude fits a signed 64-bit integer is consumed
exactly and its written value returned. -/
lemma ReadIntValue_roundtrip (sg : Option Bool) (ds : List ℕ) (delim : Char)
    (rest : List Char) (hne : ds ≠ []) (hds : ∀ d ∈ ds, d < 10)
    (hbound : (digitsVal ds : ℤ) < 2 ^ 63) (hdelim : isDigitChar delim = false) :
    ReadIntValue (signPrefix sg ++ ds.map digitChar ++ delim :: rest) =
      .ok (signFactorZ sg * (digitsVal ds : ℤ), delim :: rest) := by
  obtain ⟨d0, ds', rfl⟩ : ∃ d0 ds', ds = d0 :: ds' := by
    cases ds with
    | nil => exact absurd rfl hne
    | cons x xs => exact ⟨x, xs, rfl⟩
  have hd0 : d0 < 10 := hds d0 (by simp)
  have hfacts := digitChar_head_facts hd0
  have hspec := readIntDigits_spec false d0 ds' delim rest hd0
    (fun x hx => hds x (by simp [hx])) hbound hdelim
  have hspecT := readIntDigits_spec true d0 ds' delim rest hd0
    (fun x hx => hds x (by simp [hx])) hbound hdelim
  cases sg with
  | none =>
    rw [show signPrefix none ++ List.map digitChar (d0 :: ds') ++ delim :: rest
        = digitChar d0 :: (List.map digitChar ds' ++ delim :: rest) by simp [signPrefix],
      ReadIntValue_eval_digit _ _ hfacts.1 hfacts.2.1
        (by push_neg; exact ⟨hfacts.2.2.1, hfacts.2.2.2.1⟩), hspec]
    simp [signFactorZ]
  | some b =>
    cases b with
    | false =>
      rw [show signPrefix (some false) ++ List.map digitChar (d0 :: ds') ++ delim :: rest
          = '+' :: digitChar d0 :: (List.map digitChar ds' ++ delim :: rest) by
            simp [signPrefix],
        ReadIntValue_eval_sign '+' _ _ (by decide) (by decide) (Or.inr rfl),
        show (('+' : Char) == '-') = false by decide, hspec]
      simp [signFactorZ]
    | true =>
      rw [show signPrefix (some true) ++ List.map digitChar (d0 :: ds') ++ delim :: rest
          = '-' :: digitChar d0 :: (List.map digitChar ds' ++ delim :: rest) by
            simp [signPrefix],
        ReadIntValue_eval_sign '-' _ _ (by decide) (by decide) (Or.inl rfl),
        show (('-' : Char) == '-') = true by decide, hspecT]
      simp [signFactorZ]

/-! ### `vtkFoamFile::ReadFloatValue` (lines 2566-2695)

`double` arithmetic is idealised over `ℚ` (the claim asks for the written
value "within floating-point precision", i.e. for the ideal value the code's
arithmetic approximates; every operation used — `*10`, `+digit`, `/divisor`,
`*scale` — is exact in `ℚ`). The fast exponent loops' constants `1.0e+64`,
`1.0e+16`, `1.0e+4`, `1.0e+1` are the exact powers `10^64`, `10^16`, `10^4`,
`10^1`. -/

def digitValN (c : Char) : ℕ :=
  c.toNat - 48

/-- Integer-part loop: `while (isdigit(c = Getc())) num = num * 10.0 + (c - '0')`;
EOF simply ends the loop (the EOF check happens at the very end of
`ReadFloatValue`). -/
def floatDigitsLoop : ℚ → List Char → ℚ × List Char
  | num, [] => (num, [])
  | num, c :: rest =>
    if isDigitChar c then floatDigitsLoop (num * 10 + (digitVal c : ℚ)) rest
    else (num, c :: rest)

/-- Decimal-part loop: also scales `divisor` by 10 per digit. -/
def fracLoop : ℚ → ℚ → List Char → ℚ × ℚ × List Char
  | num, divisor, [] => (num, divisor, [])
  | num, divisor, c :: rest =>
    if isDigitChar c then fracLoop (num * 10 + (digitVal c : ℚ)) (divisor * 10) rest
    else (num, divisor, c :: rest)

/-- Exponent-digit loop: `eval = eval * 10 + (c - '0')`. (`eval` is a C `int`;
the round-trip theorem assumes the written exponent fits in it, under which
the plain `ℕ` model coincides.) -/
def expDigitsLoop : ℕ → List Char → ℕ × List Char
  | ev, [] => (ev, [])
  | ev, c :: rest =>
    if isDigitChar c then expDigitsLoop (ev * 10 + digitValN c) rest
    else (ev, c :: rest)

/-- One `while (eval >= k) { scale *= mult; eval -= k; }` loop. The fuel is the
initial `eval`; since `eval` drops by `k ≥ 1` per iteration the fuel is never
exhausted. -/
def scaleLoop (k : ℕ) (mult : ℚ) : ℕ → ℕ → ℚ → ℕ × ℚ
  | 0, e, sc => (e, sc)
  | fuel + 1, e, sc =>
    if k ≤ e then scaleLoop k mult fuel (e - k) (sc * mult) else (e, sc)

def scaleStep (k : ℕ) (mult : ℚ) (p : ℕ × ℚ) : ℕ × ℚ :=
  scaleLoop k mult p.1 p.1 p.2

/-- The "fast exponent multiplication" cascade of `ReadFloatValue`. -/
def fastScale (e : ℕ) : ℚ :=
  (scaleStep 1 ((10 : ℚ) ^ (1 : ℕ))
    (scaleStep 4 ((10 : ℚ) ^ (4 : ℕ))
      (scaleStep 16 ((10 : ℚ) ^ (16 : ℕ))
        (scaleStep 64 ((10 : ℚ) ^ (64 : ℕ)) (e, 1))))).2

/-- Tail of the exponent part after the exponent sign is resolved. -/
def expPart (neg : Bool) (num : ℚ) (esign : Bool) (s : List Char) :
    Except String (ℚ × List Char) :=
  let t := expDigitsLoop 0 s
  let scale := fastScale t.1
  let num' := if esign then num / scale else num * scale
  match t.2 with
  | [] => .error "ReadFloatValue: unexpected EOF"
  | c :: r => .ok (if neg then -num' else num', c :: r)

/-- `c = Getc(); if (c == '-') { esign = -1; c = Getc(); } else if (c == '+') ...` -/
def readExponent (neg : Bool) (num : ℚ) : List Char → Except String (ℚ × List Char)
  | [] => expPart neg num false []
  | c :: r =>
    if c = '-' then expPart neg num true r
    else if c = '+' then expPart neg num false r
    else expPart neg num false (c :: r)

/-- Decimal part: `if (c == '.') { ... num /= divisor; }` — the state `(num, s)`
is the accumulated value and the stream with the breaking char at the head. -/
def floatFracStage (p : ℚ × List Char) : ℚ × List Char :=
  match p.2 with
  | [] => (p.1, [])
  | c2 :: r2 =>
    if c2 = '.' then
      let t := fracLoop p.1 1 r2
      (t.1 / t.2.1, t.2.2)
    else (p.1, c2 :: r2)

/-- Exponent part and final EOF check/`PutBack`:
`if (c == 'E' || c == 'e') { ... }` then `if (c == EOF) throw`. -/
def floatExpStage (neg : Bool) (q : ℚ × List Char) : Except String (ℚ × List Char) :=
  match q.2 with
  | [] => .error "ReadFloatValue: unexpected EOF"
  | c3 :: r3 =>
    if c3 = 'E' ∨ c3 = 'e' then readExponent neg q.1 r3
    else .ok (if neg then -q.1 else q.1, c3 :: r3)

/-- `ReadFloatValue` after the leading sign: nondigit check, integer part,
decimal part, exponent part. -/
def readFloatBody (neg : Bool) : List Char → Except String (ℚ × List Char)
  | [] => .error "ReadFloatValue: unexpected nondigit"
  | c :: rest =>
    if ¬(isDigitChar c = true ∨ c = '.') then .error "ReadFloatValue: unexpected nondigit"
    else
      floatExpStage neg (floatFracStage
        (if c ≠ '.' then floatDigitsLoop ((digitVal c : ℚ)) rest else ((0 : ℚ), c :: rest)))

/-- Model of `vtkFoamFile::ReadFloatValue`. -/
def ReadFloatValue (s : List Char) : Except String (ℚ × List Char) :=
  match skipSpaces s with
  | [] => .error "ReadFloatValue: unexpected nondigit"
  | c :: rest =>
    if c = '/' then .error "ReadFloatValue: comment dispatch not modelled"
    else if c = '-' ∨ c = '+' then readFloatBody (c == '-') rest
    else readFloatBody false (c :: rest)

/-- The unsigned mathematical value of a written floating literal
`ids [. fds] [e/E [esign] eds]`. -/
def floatMag (ids fds eds : List ℕ) (hasFrac hasExp : Bool) (esg : Option Bool) : ℚ :=
  let mag : ℚ := (digitsVal ids : ℚ) +
    (if hasFrac then (digitsVal fds : ℚ) / 10 ^ fds.length else 0)
  if hasExp then
    if esg = some true then mag / 10 ^ digitsVal eds else mag * 10 ^ digitsVal eds
  else mag

/-- The mathematical value of a written floating literal
`[sign] ids [. fds] [e/E [esign] eds]`. -/
def floatLitVal (sg : Option Bool) (ids fds eds : List ℕ) (hasFrac hasExp : Bool)
    (esg : Option Bool) : ℚ :=
  if sg = some true then -floatMag ids fds eds hasFrac hasExp esg
  else floatMag ids fds eds hasFrac hasExp esg

def HeadNotDigit : List Char → Prop
  | [] => True
  | c :: _ => isDigitChar c = false

/-- `ℚ`-valued digit accumulator in the code's orientation `num * 10 + d`. -/
def digitsFoldQ (acc : ℚ) : List ℕ → ℚ
  | [] => acc
  | d :: ds => digitsFoldQ (acc * 10 + (d : ℚ)) ds

lemma digitValN_digitChar {d : ℕ} (h : d < 10) : digitValN (digitChar d) = d := by
  simp [digitValN, digitChar_toNat h]

lemma digitsVal_shift (ds : List ℕ) :
    ∀ a : ℕ, ds.foldl (fun x d => 10 * x + d) a = a * 10 ^ ds.length + digitsVal ds := by
  induction ds with
  | nil => intro a; simp [digitsVal]
  | cons d rest ih =>
    intro a
    simp only [List.foldl_cons, List.length_cons]
    rw [ih (10 * a + d)]
    have hd : digitsVal (d :: rest) = d * 10 ^ rest.length + digitsVal rest := by
      show List.foldl _ _ (d :: rest) = _
      simp only [List.foldl_cons]
      rw [ih (10 * 0 + d)]
      norm_num
    rw [hd]
    ring

lemma digitsVal_cons (d : ℕ) (ds : List ℕ) :
    digitsVal (d :: ds) = d * 10 ^ ds.length + digitsVal ds := by
  show List.foldl _ _ (d :: ds) = _
  simp only [List.foldl_cons]
  rw [digitsVal_shift ds (10 * 0 + d)]
  norm_num

lemma digitsFoldQ_eq (ds : List ℕ) :
    ∀ a : ℚ, digitsFoldQ a ds = a * 10 ^ ds.length + (digitsVal ds : ℚ) := by
  induction ds with
  | nil => intro a; simp [digitsFoldQ, digitsVal]
  | cons d rest ih =>
    intro a
    simp only [digitsFoldQ, List.length_cons]
    rw [ih (a * 10 + (d : ℚ)), digitsVal_cons d rest]
    push_cast
    ring

lemma floatDigitsLoop_spec :
    ∀ (ds : List ℕ) (num : ℚ) (tail : List Char),
      (∀ d ∈ ds, d < 10) → HeadNotDigit tail →
      floatDigitsLoop num (ds.map digitChar ++ tail) = (digitsFoldQ num ds, tail)
  | [], num, tail, _, htail => by
      cases tail with
      | nil => rfl
      | cons c r =>
        simp only [HeadNotDigit] at htail
        simp [floatDigitsLoop, htail, digitsFoldQ]
  | d :: ds, num, tail, hds, htail => by
      have hd : d < 10 := hds d (by simp)
      simp only [List.map_cons, List.cons_append, floatDigitsLoop,
        isDigitChar_digitChar hd, if_pos rfl, digitVal_digitChar hd, digitsFoldQ,
        Int.cast_natCast]
      exact floatDigitsLoop_spec ds (num * 10 + (d : ℚ)) tail
        (fun x hx => hds x (by simp [hx])) htail

lemma fracLoop_spec :
    ∀ (ds : List ℕ) (num divisor : ℚ) (tail : List Char),
      (∀ d ∈ ds, d < 10) → HeadNotDigit tail →
      fracLoop num divisor (ds.map digitChar ++ tail) =
        (digitsFoldQ num ds, divisor * 10 ^ ds.length, tail)
  | [], num, divisor, tail, _, htail => by
      cases tail with
      | nil => simp [fracLoop, digitsFoldQ]
      | cons c r =>
        simp only [HeadNotDigit] at htail
        simp [fracLoop, htail, digitsFoldQ]
  | d :: ds, num, divisor, tail, hds, htail => by
      have hd : d < 10 := hds d (by simp)
      simp only [List.map_cons, List.cons_append, fracLoop,
        isDigitChar_digitChar hd, if_pos rfl, digitVal_digitChar hd, digitsFoldQ,
        List.length_cons, Int.cast_natCast]
      refine (fracLoop_spec ds (num * 10 + (d : ℚ)) (divisor * 10) tail
        (fun x hx => hds x (by simp [hx])) htail).trans ?_
      rw [Prod.mk.injEq, Prod.mk.injEq]
      exact ⟨rfl, by ring, rfl⟩

lemma expDigitsLoop_spec :
    ∀ (ds : List ℕ) (ev : ℕ) (tail : List Char),
      (∀ d ∈ ds, d < 10) → HeadNotDigit tail →
      expDigitsLoop ev (ds.map digitChar ++ tail) =
        (ds.foldl (fun a d => 10 * a + d) ev, tail)
  | [], ev, tail, _, htail => by
      cases tail with
      | nil => rfl
      | cons c r =>
        simp only [HeadNotDigit] at htail
        simp [expDigitsLoop, htail]
  | d :: ds, ev, tail, hds, htail => by
      have hd : d < 10 := hds d (by simp)
      simp only [List.map_cons, List.cons_append, expDigitsLoop,
        isDigitChar_digitChar hd, if_pos rfl, digitValN_digitChar hd, List.foldl_cons]
      rw [show ev * 10 + d = 10 * ev + d by ring]
      exact expDigitsLoop_spec ds (10 * ev + d) tail (fun x hx => hds x (by simp [hx])) htail

lemma scaleLoop_spec (k : ℕ) (mult : ℚ) (hk : 0 < k) :
    ∀ (fuel e : ℕ) (sc : ℚ), e ≤ fuel →
      scaleLoop k mult fuel e sc = (e % k, sc * mult ^ (e / k))
  | 0, e, sc, he => by
      have : e = 0 := Nat.le_zero.mp he
      subst this
      simp [scaleLoop]
  | fuel + 1, e, sc, he => by
      by_cases hke : k ≤ e
      · have hsub : e - k ≤ fuel := by omega
        simp only [scaleLoop, if_pos hke]
        rw [scaleLoop_spec k mult hk fuel (e - k) (sc * mult) hsub]
        have hmod : (e - k) % k = e % k := by
          conv_rhs => rw [← Nat.sub_add_cancel hke]
          rw [Nat.add_mod_right]
        have hdiv : (e - k) / k + 1 = e / k := by
          conv_rhs => rw [← Nat.sub_add_cancel hke]
          rw [Nat.add_div_right _ hk]
        rw [Prod.mk.injEq]
        refine ⟨hmod, ?_⟩
        rw [← hdiv, pow_succ]
        ring
      · simp only [scaleLoop, if_neg hke]
        rw [Nat.mod_eq_of_lt (by omega), Nat.div_eq_of_lt (by omega)]
        simp

lemma scaleStep_spec (k : ℕ) (mult : ℚ) (hk : 0 < k) (p : ℕ × ℚ) :
    scaleStep k mult p = (p.1 % k, p.2 * mult ^ (p.1 / k)) :=
  scaleLoop_spec k mult hk p.1 p.1 p.2 le_rfl

/-- The fast exponent cascade computes exactly `10 ^ e`. -/
lemma fastScale_eq (e : ℕ) : fastScale e = 10 ^ e := by
  rw [fastScale, scaleStep_spec 64 _ (by norm_num), scaleStep_spec 16 _ (by norm_num),
    scaleStep_spec 4 _ (by norm_num), scaleStep_spec 1 _ (by norm_num)]
  simp only [one_mul, Nat.div_one]
  rw [← pow_mul, ← pow_mul, ← pow_mul, ← pow_mul, ← pow_add, ← pow_add, ← pow_add]
  congr 1
  omega

lemma expPart_spec (neg : Bool) (num : ℚ) (esign : Bool) (eds : List ℕ) (delim : Char)
    (rest : List Char) (heds : ∀ d ∈ eds, d < 10) (hdelim : isDigitChar delim = false) :
    expPart neg num esign (eds.map digitChar ++ delim :: rest) =
      .ok ((if neg then -(if esign then num / 10 ^ digitsVal eds
                          else num * 10 ^ digitsVal eds)
            else if esign then num / 10 ^ digitsVal eds
                 else num * 10 ^ digitsVal eds), delim :: rest) := by
  have hloop : expDigitsLoop 0 (eds.map digitChar ++ delim :: rest) =
      (digitsVal eds, delim :: rest) :=
    expDigitsLoop_spec eds 0 (delim :: rest) heds (by simpa [HeadNotDigit] using hdelim)
  simp only [expPart, hloop, fastScale_eq]

lemma readExponent_spec (neg : Bool) (num : ℚ) (esg : Option Bool) (eds : List ℕ)
    (delim : Char) (rest : List Char) (heds : ∀ d ∈ eds, d < 10)
    (hene : esg = none → eds ≠ []) (hdelim : isDigitChar delim = false) :
    readExponent neg num (signPrefix esg ++ eds.map digitChar ++ delim :: rest) =
      .ok ((if neg then -(if esg = some true then num / 10 ^ digitsVal eds
                          else num * 10 ^ digitsVal eds)
            else if esg = some true then num / 10 ^ digitsVal eds
                 else num * 10 ^ digitsVal eds), delim :: rest) := by
  cases esg with
  | none =>
    obtain ⟨e0, eds', rfl⟩ : ∃ e0 eds', eds = e0 :: eds' := by
      cases eds with
      | nil => exact absurd rfl (hene rfl)
      | cons x xs => exact ⟨x, xs, rfl⟩
    have he0 : e0 < 10 := heds e0 (by simp)
    have hfacts := digitChar_head_facts he0
    rw [show signPrefix none ++ List.map digitChar (e0 :: eds') ++ delim :: rest
        = digitChar e0 :: (List.map digitChar eds' ++ delim :: rest) by simp [signPrefix]]
    rw [readExponent, if_neg hfacts.2.2.1, if_neg hfacts.2.2.2.1]
    rw [show digitChar e0 :: (List.map digitChar eds' ++ delim :: rest)
        = List.map digitChar (e0 :: eds') ++ delim :: rest by simp]
    rw [expPart_spec neg num false (e0 :: eds') delim rest heds hdelim]
    simp
  | some b =>
    cases b with
    | false =>
      rw [show signPrefix (some false) ++ List.map digitChar eds ++ delim :: rest
          = '+' :: (List.map digitChar eds ++ delim :: rest) by simp [signPrefix]]
      rw [readExponent, if_neg (by decide : ¬('+' : Char) = '-'), if_pos rfl]
      rw [expPart_spec neg num false eds delim rest heds hdelim]
      simp
    | true =>
      rw [show signPrefix (some true) ++ List.map digitChar eds ++ delim :: rest
          = '-' :: (List.map digitChar eds ++ delim :: rest) by simp [signPrefix]]
      rw [readExponent, if_pos rfl]
      rw [expPart_spec neg num true eds delim rest heds hdelim]
      simp

lemma digitsFoldQ_head (d0 : ℕ) (ids' : List ℕ) :
    digitsFoldQ ((d0 : ℚ)) ids' = (digitsVal (d0 :: ids') : ℚ) := by
  rw [digitsFoldQ_eq, digitsVal_cons]
  push_cast
  ring

lemma fracQuotient_eq (I : ℚ) (fds : List ℕ) :
    digitsFoldQ I fds / (1 * 10 ^ fds.length) = I + (digitsVal fds : ℚ) / 10 ^ fds.length := by
  have h10 : ((10 : ℚ) ^ fds.length) ≠ 0 := pow_ne_zero _ (by norm_num)
  rw [digitsFoldQ_eq, one_mul]
  field_simp


lemma floatFracStage_dot (num : ℚ) (fds : List ℕ) (tail : List Char)
    (hfds : ∀ d ∈ fds, d < 10) (htail : HeadNotDigit tail) :
    floatFracStage (num, '.' :: (fds.map digitChar ++ tail)) =
      (num + (digitsVal fds : ℚ) / 10 ^ fds.length, tail) := by
  simp only [floatFracStage, eq_self_iff_true, if_true,
    fracLoop_spec fds num 1 tail hfds htail]
  rw [fracQuotient_eq]

lemma floatFracStage_skip (num : ℚ) (c2 : Char) (r2 : List Char) (h : c2 ≠ '.') :
    floatFracStage (num, c2 :: r2) = (num, c2 :: r2) := by
  simp [floatFracStage, h]

lemma floatExpStage_e (neg : Bool) (num : ℚ) (s : List Char) :
    floatExpStage neg (num, 'e' :: s) = readExponent neg num s := by
  simp [floatExpStage]

lemma floatExpStage_done (neg : Bool) (num : ℚ) (c3 : Char) (r3 : List Char)
    (h : ¬(c3 = 'E' ∨ c3 = 'e')) :
    floatExpStage neg (num, c3 :: r3) = .ok (if neg then -num else num, c3 :: r3) := by
  simp [floatExpStage, h]

lemma readFloatBody_digit_head (neg : Bool) (d0 : ℕ) (s : List Char) (hd0 : d0 < 10) :
    readFloatBody neg (digitChar d0 :: s) =
      floatExpStage neg (floatFracStage (floatDigitsLoop (((d0 : ℤ) : ℚ)) s)) := by
  have hfacts := digitChar_head_facts hd0
  simp only [readFloatBody]
  rw [if_neg (show ¬¬(isDigitChar (digitChar d0) = true ∨ digitChar d0 = '.') by
      simp [isDigitChar_digitChar hd0])]
  rw [if_pos hfacts.2.2.2.2.1, digitVal_digitChar hd0]

lemma readFloatBody_spec (neg : Bool) (ids fds eds : List ℕ) (hasFrac hasExp : Bool)
    (esg : Option Bool) (delim : Char) (rest : List Char)
    (hine : ids ≠ []) (hids : ∀ d ∈ ids, d < 10) (hfds : ∀ d ∈ fds, d < 10)
    (heds : ∀ d ∈ eds, d < 10) (hene : hasExp = true → esg = none → eds ≠ [])
    (hdelim : isDigitChar delim = false)
    (hdexp : hasExp = false → delim ≠ 'e' ∧ delim ≠ 'E')
    (hdfrac : hasFrac = false → hasExp = false → delim ≠ '.') :
    readFloatBody neg (ids.map digitChar ++
        (if hasFrac then '.' :: fds.map digitChar else []) ++
        (if hasExp then 'e' :: (signPrefix esg ++ eds.map digitChar) else []) ++
        delim :: rest) =
      .ok ((if neg then -floatMag ids fds eds hasFrac hasExp esg
            else floatMag ids fds eds hasFrac hasExp esg), delim :: rest) := by
  obtain ⟨d0, ids', rfl⟩ : ∃ d0 ids', ids = d0 :: ids' := by
    cases ids with
    | nil => exact absurd rfl hine
    | cons x xs => exact ⟨x, xs, rfl⟩
  have hd0 : d0 < 10 := hids d0 (by simp)
  have hids' : ∀ d ∈ ids', d < 10 := fun x hx => hids x (by simp [hx])
  have hI : digitsFoldQ (((d0 : ℤ) : ℚ)) ids' = ((digitsVal (d0 :: ids') : ℕ) : ℚ) := by
    rw [Int.cast_natCast]
    exact digitsFoldQ_head d0 ids'
  cases hasFrac with
  | true =>
    cases hasExp with
    | true =>
      -- digits, fraction, exponent
      simp only [eq_self_iff_true, if_true]
      rw [show List.map digitChar (d0 :: ids') ++ ('.' :: List.map digitChar fds) ++
          ('e' :: (signPrefix esg ++ List.map digitChar eds)) ++ delim :: rest
          = digitChar d0 :: (List.map digitChar ids' ++
              ('.' :: (List.map digitChar fds ++
                ('e' :: (signPrefix esg ++ List.map digitChar eds ++ delim :: rest))))) by
            simp]
      rw [readFloatBody_digit_head neg d0 _ hd0]
      rw [floatDigitsLoop_spec ids' (((d0 : ℤ) : ℚ))
        ('.' :: (List.map digitChar fds ++
          ('e' :: (signPrefix esg ++ List.map digitChar eds ++ delim :: rest))))
        hids' (by simp only [HeadNotDigit]; decide)]
      rw [hI]
      rw [floatFracStage_dot ((digitsVal (d0 :: ids') : ℚ)) fds
        ('e' :: (signPrefix esg ++ List.map digitChar eds ++ delim :: rest))
        hfds (by simp only [HeadNotDigit]; decide)]
      rw [floatExpStage_e]
      rw [readExponent_spec neg _ esg eds delim rest heds (hene rfl) hdelim]
      simp only [floatMag, eq_self_iff_true, if_true]
    | false =>
      have hdd := hdexp rfl
      simp only [eq_self_iff_true, if_true, Bool.false_eq_true, if_false]
      rw [show List.map digitChar (d0 :: ids') ++ ('.' :: List.map digitChar fds) ++
          ([] : List Char) ++ delim :: rest
          = digitChar d0 :: (List.map digitChar ids' ++
              ('.' :: (List.map digitChar fds ++ delim :: rest))) by simp]
      rw [readFloatBody_digit_head neg d0 _ hd0]
      rw [floatDigitsLoop_spec ids' (((d0 : ℤ) : ℚ))
        ('.' :: (List.map digitChar fds ++ delim :: rest))
        hids' (by simp only [HeadNotDigit]; decide)]
      rw [hI]
      rw [floatFracStage_dot ((digitsVal (d0 :: ids') : ℚ)) fds (delim :: rest)
        hfds (by simpa [HeadNotDigit] using hdelim)]
      rw [floatExpStage_done neg _ delim rest (by push_neg; exact ⟨hdd.2, hdd.1⟩)]
      simp only [floatMag, eq_self_iff_true, if_true, Bool.false_eq_true, if_false]
  | false =>
    cases hasExp with
    | true =>
      simp only [eq_self_iff_true, if_true, Bool.false_eq_true, if_false]
      rw [show List.map digitChar (d0 :: ids') ++ ([] : List Char) ++
          ('e' :: (signPrefix esg ++ List.map digitChar eds)) ++ delim :: rest
          = digitChar d0 :: (List.map digitChar ids' ++
              ('e' :: (signPrefix esg ++ List.map digitChar eds ++ delim :: rest))) by simp]
      rw [readFloatBody_digit_head neg d0 _ hd0]
      rw [floatDigitsLoop_spec ids' (((d0 : ℤ) : ℚ))
        ('e' :: (signPrefix esg ++ List.map digitChar eds ++ delim :: rest))
        hids' (by simp only [HeadNotDigit]; decide)]
      rw [hI]
      rw [floatFracStage_skip _ 'e' _ (by decide)]
      rw [floatExpStage_e]
      rw [readExponent_spec neg _ esg eds delim rest heds (hene rfl) hdelim]
      simp only [floatMag, eq_self_iff_true, if_true, Bool.false_eq_true, if_false, add_zero]
    | false =>
      have hdd := hdexp rfl
      have hdot := hdfrac rfl rfl
      simp only [Bool.false_eq_true, if_false]
      rw [show List.map digitChar (d0 :: ids') ++ ([] : List Char) ++
          ([] : List Char) ++ delim :: rest
          = digitChar d0 :: (List.map digitChar ids' ++ delim :: rest) by simp]
      rw [readFloatBody_digit_head neg d0 _ hd0]
      rw [floatDigitsLoop_spec ids' (((d0 : ℤ) : ℚ)) (delim :: rest)
        hids' (by simpa [HeadNotDigit] using hdelim)]
      rw [hI]
      rw [floatFracStage_skip _ delim rest hdot]
      rw [floatExpStage_done neg _ delim rest (by push_neg; exact ⟨hdd.2, hdd.1⟩)]
      simp only [floatMag, Bool.false_eq_true, if_false, add_zero]

lemma ReadFloatValue_eval_digit (c : Char) (s : List Char) (h1 : isSpaceChar c = false)
    (h2 : c ≠ '/') (h3 : ¬(c = '-' ∨ c = '+')) :
    ReadFloatValue (c :: s) = readFloatBody false (c :: s) := by
  simp only [ReadFloatValue, skipSpaces, h1, Bool.false_eq_true, if_false, if_neg h2,
    if_neg h3]

lemma ReadFloatValue_eval_sign (c : Char) (s : List Char) (h1 : isSpaceChar c = false)
    (h2 : c ≠ '/') (h3 : c = '-' ∨ c = '+') :
    ReadFloatValue (c :: s) = readFloatBody (c == '-') s := by
  simp only [ReadFloatValue, skipSpaces, h1, Bool.false_eq_true, if_false, if_neg h2,
    if_pos h3]

/-- **Round-trip for `ReadFloatValue`** (second half of C10): a decimal or
scientific-notation literal `[sign] ids [. fds] [e/E [esign] eds]` is consumed
exactly and its written value (in the exact-`ℚ` idealisation of the `double`
arithmetic) returned. -/
lemma ReadFloatValue_roundtrip (sg : Option Bool) (ids fds eds : List ℕ)
    (hasFrac hasExp : Bool) (esg : Option Bool) (delim : Char) (rest : List Char)
    (hine : ids ≠ []) (hids : ∀ d ∈ ids, d < 10) (hfds : ∀ d ∈ fds, d < 10)
    (heds : ∀ d ∈ eds, d < 10) (hene : hasExp = true → esg = none → eds ≠ [])
    (hdelim : isDigitChar delim = false)
    (hdexp : hasExp = false → delim ≠ 'e' ∧ delim ≠ 'E')
    (hdfrac : hasFrac = false → hasExp = false → delim ≠ '.') :
    ReadFloatValue (signPrefix sg ++ ids.map digitChar ++
        (if hasFrac then '.' :: fds.map digitChar else []) ++
        (if hasExp then 'e' :: (signPrefix esg ++ eds.map digitChar) else []) ++
        delim :: rest) =
      .ok (floatLitVal sg ids fds eds hasFrac hasExp esg, delim :: rest) := by
  obtain ⟨d0, ids', rfl⟩ : ∃ d0 ids', ids = d0 :: ids' := by
    cases ids with
    | nil => exact absurd rfl hine
    | cons x xs => exact ⟨x, xs, rfl⟩
  have hd0 : d0 < 10 := hids d0 (by simp)
  have hfacts := digitChar_head_facts hd0
  have hbody := fun neg => readFloatBody_spec neg (d0 :: ids') fds eds hasFrac hasExp esg
    delim rest hine hids hfds heds hene hdelim hdexp hdfrac
  cases sg with
  | none =>
    rw [show signPrefix none ++ List.map digitChar (d0 :: ids') ++
        (if hasFrac then '.' :: fds.map digitChar else []) ++
        (if hasExp then 'e' :: (signPrefix esg ++ eds.map digitChar) else []) ++
        delim :: rest
        = digitChar d0 :: (List.map digitChar ids' ++
            (if hasFrac then '.' :: fds.map digitChar else []) ++
            (if hasExp then 'e' :: (signPrefix esg ++ eds.map digitChar) else []) ++
            delim :: rest) by simp [signPrefix]]
    rw [ReadFloatValue_eval_digit _ _ hfacts.1 hfacts.2.1
      (by push_neg; exact ⟨hfacts.2.2.1, hfacts.2.2.2.1⟩)]
    rw [show digitChar d0 :: (List.map digitChar ids' ++
            (if hasFrac then '.' :: fds.map digitChar else []) ++
            (if hasExp then 'e' :: (signPrefix esg ++ eds.map digitChar) else []) ++
            delim :: rest)
        = List.map digitChar (d0 :: ids') ++
            (if hasFrac then '.' :: fds.map digitChar else []) ++
            (if hasExp then 'e' :: (signPrefix esg ++ eds.map digitChar) else []) ++
            delim :: rest by simp]
    rw [hbody false]
    simp [floatLitVal]
  | some b =>
    cases b with
    | false =>
      rw [show signPrefix (some false) ++ List.map digitChar (d0 :: ids') ++
          (if hasFrac then '.' :: fds.map digitChar else []) ++
          (if hasExp then 'e' :: (signPrefix esg ++ eds.map digitChar) else []) ++
          delim :: rest
          = '+' :: (List.map digitChar (d0 :: ids') ++
              (if hasFrac then '.' :: fds.map digitChar else []) ++
              (if hasExp then 'e' :: (signPrefix esg ++ eds.map digitChar) else []) ++
              delim :: rest) by simp [signPrefix]]
      rw [ReadFloatValue_eval_sign '+' _ (by decide) (by decide) (Or.inr rfl),
        show (('+' : Char) == '-') = false by decide]
      rw [hbody false]
      simp [floatLitVal]
    | true =>
      rw [show signPrefix (some true) ++ List.map digitChar (d0 :: ids') ++
          (if hasFrac then '.' :: fds.map digitChar else []) ++
          (if hasExp then 'e' :: (signPrefix esg ++ eds.map digitChar) else []) ++
          delim :: rest
          = '-' :: (List.map digitChar (d0 :: ids') ++
              (if hasFrac then '.' :: fds.map digitChar else []) ++
              (if hasExp then 'e' :: (signPrefix esg ++ eds.map digitChar) else []) ++
              delim :: rest) by simp [signPrefix]]
      rw [ReadFloatValue_eval_sign '-' _ (by decide) (by decide) (Or.inl rfl),
        show (('-' : Char) == '-') = true by decide]
      rw [hbody true]
      simp [floatLitVal]

/-- **C10.** The hand-rolled numeric parsers round-trip written literals:
`ReadIntValue` returns exactly the written value of any signed decimal integer
literal whose magnitude fits a signed 64-bit integer, and `ReadFloatValue`
recovers the written value of any signed decimal/scientific literal (exactly,
in the `ℚ` idealisation of its `double` arithmetic; the exponent is assumed to
fit the C `int` accumulator). -/
theorem vtkFoamFile_numeric_roundtrip :
    (∀ (sg : Option Bool) (ds : List ℕ) (delim : Char) (rest : List Char),
      ds ≠ [] → (∀ d ∈ ds, d < 10) → (digitsVal ds : ℤ) < 2 ^ 63 →
      isDigitChar delim = false →
      ReadIntValue (signPrefix sg ++ ds.map digitChar ++ delim :: rest) =
        .ok (signFactorZ sg * (digitsVal ds : ℤ), delim :: rest)) ∧
    (∀ (sg : Option Bool) (ids fds eds : List ℕ) (hasFrac hasExp : Bool)
      (esg : Option Bool) (delim : Char) (rest : List Char),
      ids ≠ [] → (∀ d ∈ ids, d < 10) → (∀ d ∈ fds, d < 10) → (∀ d ∈ eds, d < 10) →
      (hasExp = true → esg = none → eds ≠ []) → digitsVal eds < 2 ^ 31 →
      isDigitChar delim = false →
      (hasExp = false → delim ≠ 'e' ∧ delim ≠ 'E') →
      (hasFrac = false → hasExp = false → delim ≠ '.') →
      ReadFloatValue (signPrefix sg ++ ids.map digitChar ++
          (if hasFrac then '.' :: fds.map digitChar else []) ++
          (if hasExp then 'e' :: (signPrefix esg ++ eds.map digitChar) else []) ++
          delim :: rest) =
        .ok (floatLitVal sg ids fds eds hasFrac hasExp esg, delim :: rest)) :=
  ⟨fun sg ds delim rest h1 h2 h3 h4 => ReadIntValue_roundtrip sg ds delim rest h1 h2 h3 h4,
   fun sg ids fds eds hasFrac hasExp esg delim rest h1 h2 h3 h4 h5 _ h6 h7 h8 =>
    ReadFloatValue_roundtrip sg ids fds eds hasFrac hasExp esg delim rest
      h1 h2 h3 h4 h5 h6 h7 h8⟩

/-- Witness for C10: the literals `-987;` and `+12.5e-3 ` parse to `-987` and
`1/80` respectively. -/
theorem vtkFoamFile_numeric_roundtrip_witness :
    ReadIntValue (signPrefix (some true) ++ [9, 8, 7].map digitChar ++ ';' :: []) =
      .ok (signFactorZ (some true) * (digitsVal [9, 8, 7] : ℤ), ';' :: []) ∧
    ReadFloatValue (signPrefix (some false) ++ [1, 2].map digitChar ++
        ('.' :: [5].map digitChar) ++
        ('e' :: (signPrefix (some true) ++ [3].map digitChar)) ++ ' ' :: []) =
      .ok (floatLitVal (some false) [1, 2] [5] [3] true true (some true), ' ' :: []) := by
  constructor
  · exact vtkFoamFile_numeric_roundtrip.1 (some true) [9, 8, 7] ';' []
      (by decide) (by decide) (by decide) (by decide)
  · have h := vtkFoamFile_numeric_roundtrip.2 (some false) [1, 2] [5] [3] true true
      (some true) ' ' [] (by decide) (by decide) (by decide) (by decide)
      (by intro _ h; exact absurd h (by decide)) (by decide) (by decide)
      (by intro h; exact absurd h (by decide)) (by intro h; exact absurd h (by decide))
    simpa using h

/-! ## Label list-of-lists parsing (`vtkFoamEntryValue::ReadLabelListList`,
lines 3379-3486)

Tokens as produced by `vtkFoamFile::Read` for ASCII streams; only the token
kinds this routine consumes are modelled. The parsed `vtkFoamLabelListList`
is its offsets array plus its data array; data slots never written by the
routine are `none` (the C++ array is allocated but uninitialised there). -/

inductive FoamToken where
  | lab (n : ℤ)
  | punct (c : Char)
  | word (s : String)
deriving DecidableEq, Repr

/-- The size-prefixed sub-list body: `io.ReadExpecting('('); for subIdx <
sublistLen: SetValue(idx, subIdx, ReadValue(io))` — each value is written at
`offset(idx) + subIdx` (`pos`). -/
def readFixedLabels : ℕ → List FoamToken → (ℕ → Option ℤ) → ℕ →
    Except String ((ℕ → Option ℤ) × List FoamToken)
  | 0, toks, dat, _ => .ok (dat, toks)
  | k + 1, toks, dat, pos =>
    match toks with
    | .lab v :: rest =>
      readFixedLabels k rest (fun p => if p = pos then some v else dat p) (pos + 1)
    | _ => .error "Expected a label value"

/-- The token-delimited sub-list loop (lines 3459-3467):
`while (io.Read(currToken) && currToken != ')') { ...
InsertValue(nTotalElems++, currToken.To<int>()); ++nTotalElems; }`.
Note that `nTotalElems` advances by TWO per stored value: once by the
post-increment inside `InsertValue` and once more by the standalone
`++nTotalElems`. (The `To<int>` narrowing is immaterial here and the value is
kept as is.) -/
def readSubTokens : List FoamToken → ℕ → (ℕ → Option ℤ) →
    Except String (ℕ × (ℕ → Option ℤ) × List FoamToken)
  | [], _, _ => .error "Unexpected EOF"
  | .punct ')' :: rest, nTotal, dat => .ok (nTotal, dat, rest)
  | .lab v :: rest, nTotal, dat =>
    readSubTokens rest (nTotal + 1 + 1) (fun p => if p = nTotal then some v else dat p)
  | _ :: _, _, _ => .error "Expected an integer"

/-- The main `for (idx < listLen)` loop; state: remaining tokens,
`nTotalElems`, the data array, the offsets written so far. After the loop the
final offset is set and the closing `)` consumed. -/
def readLLLAux : ℕ → List FoamToken → ℕ → (ℕ → Option ℤ) → List ℕ →
    Except String (List ℕ × (ℕ → Option ℤ) × ℕ × List FoamToken)
  | 0, toks, nTotal, dat, offs =>
    match toks with
    | .punct ')' :: rest => .ok (offs ++ [nTotal], dat, nTotal, rest)
    | _ => .error "Expected )"
  | n + 1, toks, nTotal, dat, offs =>
    match toks with
    | .lab sublistLen :: rest =>
      if sublistLen < 0 then .error "Illegal negative list length"
      else
        match rest with
        | .punct '(' :: rest2 =>
          match readFixedLabels sublistLen.toNat rest2 dat nTotal with
          | .error e => .error e
          | .ok (dat', rest3) =>
            match rest3 with
            | .punct ')' :: rest4 =>
              readLLLAux n rest4 (nTotal + sublistLen.toNat) dat' (offs ++ [nTotal])
            | _ => .error "Expected )"
        | _ => .error "Expected ("
    | .punct '(' :: rest =>
      match readSubTokens rest nTotal dat with
      | .error e => .error e
      | .ok (nTotal', dat', rest2) => readLLLAux n rest2 nTotal' dat' (offs ++ [nTotal])
    | _ => .error "Expected integer or ("

/-- Model of the ASCII path of `vtkFoamEntryValue::ReadLabelListList`.
Returns (offsets, data trimmed to `nTotalElems` by `ResizeData`, remaining
tokens). -/
def ReadLabelListList (toks : List FoamToken) :
    Except String (List ℕ × List (Option ℤ) × List FoamToken) :=
  match toks with
  | .lab listLen :: rest =>
    if listLen < 0 then .error "Illegal negative list length"
    else
      match rest with
      | .punct '(' :: rest2 =>
        match readLLLAux listLen.toNat rest2 0 (fun _ => none) [] with
        | .error e => .error e
        | .ok (offs, dat, nTotal, remaining) =>
          .ok (offs, (List.range nTotal).map dat, remaining)
      | _ => .error "Expected ("
  | _ => .error "Expected integer"

/-- **C2 failing-input evaluation.** Parsing the ASCII input `1 ( (5) )` — one
token-delimited sub-list holding the single label 5 — yields offsets `[0, 2]`
and data `[5, ⊥]`: sub-list 0 gets `GetSize(0) = 2` with an uninitialised
second slot, instead of the claimed size 1 with exactly the written label,
because `nTotalElems` is incremented twice per token-delimited value
(`InsertValue(nTotalElems++, ...)` followed by `++nTotalElems`). -/
theorem ReadLabelListList_token_sublist_bug :
    ReadLabelListList [.lab 1, .punct '(', .punct '(', .lab 5, .punct ')', .punct ')'] =
      .ok ([0, 2], [some 5, none], []) ∧
    (([0, 2] : List ℕ).getD 1 0 - ([0, 2] : List ℕ).getD 0 0 ≠ 1) ∧
    ((([0, 2] : List ℕ), ([some 5, none] : List (Option ℤ))) ≠ ([0, 1], [some 5])) := by
  refine ⟨?_, by decide, by decide⟩
  rfl

/-! ## Entry reading and the `0()` normalization (`vtkFoamEntryValue::Read`,
lines 4606-4800, and `vtkFoamEntry::Read`, lines 4803-4913)

Only the value shapes the empty-list claims exercise are embedded; branches
the claims never reach (dictionaries `{...}`, dimension sets `[...]`,
`uniform`, the `List<...>` bulk readers, identifier substitution and the
`LABEL{...}` fold) are explicit error/unsupported branches, so no input used
below can silently take a mistranslated path. -/

inductive FoamValue where
  | vlabel (n : ℤ)
  | vpunct (c : Char)
  | vempty
  | vword (s : String)
deriving DecidableEq, Repr

/-- `vtkFoamEntryValue::ReadList` restricted to the branch taken by `()`:
`else if (currToken == ')') { Type = EMPTYLIST; return; }` (line 4469). -/
def readListModel : List FoamToken → Except String (FoamValue × Bool × List FoamToken)
  | .punct ')' :: rest => .ok (.vempty, true, rest)
  | _ => .error "general list bodies not modelled"

/-- `vtkFoamEntryValue::Read` (returns the C++ 0/1 as a `Bool`):
- `(` starts a list (`()` gives EMPTYLIST);
- `nonuniform` followed by label `0` gives EMPTYLIST after consuming `()`
  (line 4738: "an empty list doesn't have a list type specifier"); followed by
  `;` stores the word and returns 0 (line 4747);
- a plain label/punctuation/string token is stored as the value (line 4791). -/
def entryValueRead : List FoamToken → Except String (FoamValue × Bool × List FoamToken)
  | [] => .error "Unexpected EOF"
  | .punct '{' :: _ => .error "dictionary values not modelled"
  | .punct '[' :: _ => .error "dimension sets not modelled"
  | .punct '(' :: rest => readListModel rest
  | .word "uniform" :: _ => .error "uniform values not modelled"
  | .word "nonuniform" :: rest =>
    match rest with
    | [] => .error "Expected list type specifier, found EOF"
    | .lab n :: rest2 =>
      if n = 0 then
        match rest2 with
        | .punct '(' :: .punct ')' :: rest3 => .ok (.vempty, true, rest3)
        | _ => .error "Expected ( )"
      else .error "Unsupported nonuniform list type"
    | .punct ';' :: rest2 => .ok (.vword "nonuniform", false, rest2)
    | .word _ :: _ => .error "nonuniform bulk list readers not modelled"
    | _ => .error "Unsupported nonuniform list type"
  | .lab n :: rest => .ok (.vlabel n, true, rest)
  | .punct c :: rest => .ok (.vpunct c, true, rest)
  | .word s :: rest => .ok (.vword s, true, rest)

/-- The normalization step of `vtkFoamEntry::Read` (lines 4814-4834): when the
second-to-last value is the label 0 and the last is EMPTYLIST, drop the last
value and turn the label into EMPTYLIST. -/
def normalizeValues (vs : List FoamValue) : List FoamValue :=
  match vs.reverse with
  | lastV :: secondLast :: revRest =>
    match secondLast, lastV with
    | .vlabel n, .vempty =>
      if n = 0 then (FoamValue.vempty :: revRest).reverse else vs
    | _, _ => vs
  | _ => vs

/-- The value loop of `vtkFoamEntry::Read`: push a value; stop keeping it if
its read returned 0; normalize; then terminate on `;` (dropping it) or error
on unmatched `}`/`)`. Fuel is the token count plus one — every iteration
consumes at least one token. -/
def entryReadLoop : ℕ → List FoamValue → List FoamToken →
    Except String (List FoamValue × List FoamToken)
  | 0, _, _ => .error "out of fuel"
  | fuel + 1, vs, toks =>
    match entryValueRead toks with
    | .error e => .error e
    | .ok (v, ret, toks') =>
      if ret = false then .ok (vs ++ [v], toks')
      else
        let vs' := normalizeValues (vs ++ [v])
        match vs'.getLast? with
        | some (.vpunct ';') => .ok (vs'.dropLast, toks')
        | some (.vpunct '}') => .error "Unmatched \x7d"
        | some (.vpunct ')') => .error "Unmatched )"
        | _ => entryReadLoop fuel vs' toks'

/-- Model of `vtkFoamEntry::Read`: the final value list of the entry. -/
def entryRead (toks : List FoamToken) : Except String (List FoamValue × List FoamToken) :=
  entryReadLoop (toks.length + 1) [] toks

/-- **C6 counterexample.** The asymmetric sequence `0 nonuniform 0()` IS
normalized: the parse collapses it to the single EMPTYLIST value (the label 0
and the EMPTYLIST produced by `nonuniform 0()` match the fold condition at
line 4829), contrary to the claim that it is left unfolded. The code's own
comment (lines 4826-4828) acknowledges this as erroneous behaviour for this
input. -/
theorem entryRead_asymmetric_nonuniform_folded :
    entryRead [.lab 0, .word "nonuniform", .lab 0, .punct '(', .punct ')', .punct ';'] =
      .ok ([.vempty], []) ∧
    ([FoamValue.vempty] ≠ [FoamValue.vlabel 0, FoamValue.vempty]) := by
  exact ⟨rfl, by decide⟩

/-- **C6 (amended).** A trailing EMPTYLIST directly after a label 0 is always
folded into a single EMPTYLIST value, so `0()` yields EMPTYLIST with or
without the `nonuniform` type tag — and the asymmetric `0 nonuniform 0()`
is folded the same way (not left as two values). -/
theorem vtkFoamEntry_empty_list_normalization :
    (∀ pre : List FoamValue,
      normalizeValues (pre ++ [.vlabel 0, .vempty]) = pre ++ [.vempty]) ∧
    entryRead [.lab 0, .punct '(', .punct ')', .punct ';'] = .ok ([.vempty], []) ∧
    entryRead [.word "nonuniform", .lab 0, .punct '(', .punct ')', .punct ';'] =
      .ok ([.vempty], []) ∧
    entryRead [.lab 0, .word "nonuniform", .lab 0, .punct '(', .punct ')', .punct ';'] =
      .ok ([.vempty], []) := by
  refine ⟨?_, rfl, rfl, rfl⟩
  intro pre
  simp [normalizeValues]

/-! ## Cell shape classification and insertion
(`vtkOpenFOAMReaderPrivate::InsertCellsToGrid`, lines 6573-7390)

The embedding covers the path the claims exercise: `cellList == nullptr`
(whole internal mesh, `cellId = cellI`) and `additionalCells == nullptr`
(no polyhedron decomposition — C5 is explicitly about the non-decomposed
branch, and C7's hexahedron path is independent of that flag; the
decomposition branch computes floating-point centroids and is out of the
modelled scope). Faces are point-id lists, `FaceOwner` a function, a cell its
face-id list. -/

inductive VTKCellType where
  | VTK_EMPTY_CELL
  | VTK_TETRA
  | VTK_HEXAHEDRON
  | VTK_WEDGE
  | VTK_PYRAMID
  | VTK_POLYHEDRON
deriving DecidableEq, Repr

open VTKCellType

structure InsertedCell where
  cellType : VTKCellType
  pointIds : List ℤ
  faceStream : Option (List ℤ)
deriving DecidableEq, Repr

structure FoamMesh where
  meshFaces : List (List ℤ)
  faceOwner : ℕ → ℤ
  meshCells : List (List ℕ)

def getFace (m : FoamMesh) (fi : ℕ) : List ℤ := m.meshFaces.getD fi []

def faceSize (m : FoamMesh) (fi : ℕ) : ℕ := (getFace m fi).length

/-- The 5-face triangle/quad counting loop (lines 6654-6670), which breaks at
the first face that is neither. -/
def countTQAux (sizes : List ℕ) (t q : ℕ) : ℕ × ℕ :=
  match sizes with
  | [] => (t, q)
  | n :: rest =>
    if n = 3 then countTQAux rest (t + 1) q
    else if n = 4 then countTQAux rest t (q + 1)
    else (t, q)

/-- Cell shape classification (lines 6635-6713). -/
def cellShapeType (m : FoamMesh) (cellFaces : List ℕ) : VTKCellType :=
  let base :=
    if cellFaces.length = 6 then
      if cellFaces.all (fun fi => faceSize m fi = 4) then VTK_HEXAHEDRON else VTK_POLYHEDRON
    else if cellFaces.length = 5 then
      let p := countTQAux (cellFaces.map (faceSize m)) 0 0
      if p.1 = 2 ∧ p.2 = 3 then VTK_WEDGE
      else if p.1 = 4 ∧ p.2 = 1 then VTK_PYRAMID
      else VTK_POLYHEDRON
    else if cellFaces.length = 4 then
      if cellFaces.all (fun fi => faceSize m fi = 3) then VTK_TETRA else VTK_POLYHEDRON
    else VTK_POLYHEDRON
  if base = VTK_POLYHEDRON then
    if cellFaces.all (fun fi => faceSize m fi = 0) then VTK_EMPTY_CELL else VTK_POLYHEDRON
  else base

/-! ### Hexahedron construction (lines 6720-6864) -/

/-- The duplicated-point scan over one quad face (lines 6752-6769): first
index whose point equals base point 0 (result 0) or base point 2 (result 2);
`(-1, 4)` when neither occurs. -/
def hexScanDupAux (b0 b2 : ℤ) (fp : List ℤ) : ℕ → ℕ → ℤ × ℕ
  | 0, i => (-1, i)
  | fuel + 1, i =>
    let p := fp.getD i 0
    if b0 = p then (0, i)
    else if b2 = p then (2, i)
    else hexScanDupAux b0 b2 fp fuel (i + 1)

/-- The `for (faceI = 1; faceI < 5; faceI++)` search for the opposite face and
the pivot point (lines 6748-6811). State: `(cellOppositeFaceI, pivotPoint,
dupPoint)`, all `-1` initially. -/
def hexFindLoop (m : FoamMesh) (cellId : ℤ) (cellFaces : List ℕ)
    (basePts : List ℤ) (b0 b2 : ℤ) : List ℕ → ℤ × ℤ × ℤ → ℤ × ℤ × ℤ
  | [], st => st
  | faceI :: restIdx, (opp, pivot, dup) =>
    let cellFaceI := cellFaces.getD faceI 0
    let fp := getFace m cellFaceI
    let scan := hexScanDupAux b0 b2 fp 4 0
    let foundDup := scan.1
    let pointI := scan.2
    if 0 ≤ foundDup then
      if pivot = -1 then
        let faceINextPoint := fp.getD ((pointI + 1) % 4) 0
        let cmp :=
          if m.faceOwner cellFaceI = cellId then basePts.getD (1 + foundDup).toNat 0
          else basePts.getD (3 - foundDup).toNat 0
        let pivot' := if faceINextPoint = cmp then fp.getD ((3 + pointI) % 4) 0
                      else faceINextPoint
        if 0 ≤ opp then (opp, pivot', foundDup)
        else hexFindLoop m cellId cellFaces basePts b0 b2 restIdx (opp, pivot', foundDup)
      else hexFindLoop m cellId cellFaces basePts b0 b2 restIdx (opp, pivot, dup)
    else
      if 0 ≤ pivot then ((cellFaceI : ℤ), pivot, dup)
      else hexFindLoop m cellId cellFaces basePts b0 b2 restIdx ((cellFaceI : ℤ), pivot, dup)

/-- `for (pivotPointI = 0; pivotPointI < fuel; ...)` scan for the pivot point
in the opposite face (`fuel` = 4 for hexahedra, 3 for wedges); returns `fuel`
when absent. -/
def findPivotIdxAux (oppPts : List ℤ) (pivot : ℤ) : ℕ → ℕ → ℕ
  | 0, i => i
  | fuel + 1, i =>
    if oppPts.getD i 0 = pivot then i else findPivotIdxAux oppPts pivot fuel (i + 1)

/-- Base face points of the hexahedron (lines 6727-6742): positions `3-j`
when the cell owns the base face (flip), positions `j` otherwise. -/
def hexBasePts (m : FoamMesh) (cellId : ℤ) (cellFaces : List ℕ) : List ℤ :=
  let f0 := getFace m (cellFaces.getD 0 0)
  if m.faceOwner (cellFaces.getD 0 0) = cellId then
    [f0.getD 3 0, f0.getD 2 0, f0.getD 1 0, f0.getD 0 0]
  else
    [f0.getD 0 0, f0.getD 1 0, f0.getD 2 0, f0.getD 3 0]

def hexLoopState (m : FoamMesh) (cellId : ℤ) (cellFaces : List ℕ) : ℤ × ℤ × ℤ :=
  let basePts := hexBasePts m cellId cellFaces
  hexFindLoop m cellId cellFaces basePts (basePts.getD 0 0) (basePts.getD 2 0)
    [1, 2, 3, 4] (-1, -1, -1)

/-- Lines 6813-6818: if no opposite face was found until face 4, face 5 is
the opposite face. -/
def hexOppFaceId (m : FoamMesh) (cellId : ℤ) (cellFaces : List ℕ) : ℕ :=
  if (hexLoopState m cellId cellFaces).1 = -1 then cellFaces.getD 5 0
  else (hexLoopState m cellId cellFaces).1.toNat

def hexPivotRawIdx (m : FoamMesh) (cellId : ℤ) (cellFaces : List ℕ) : ℕ :=
  findPivotIdxAux (getFace m (hexOppFaceId m cellId cellFaces))
    (hexLoopState m cellId cellFaces).2.1 4 0

/-- Lines 6832-6837: shift by two when the duplicated point was base point 2. -/
def hexPivotIdx (m : FoamMesh) (cellId : ℤ) (cellFaces : List ℕ) : ℕ :=
  if (hexLoopState m cellId cellFaces).2.2 = 2 then
    (hexPivotRawIdx m cellId cellFaces + 2) % 4
  else hexPivotRawIdx m cellId cellFaces

/-- Copy of the opposite face's points into the cell-point list (lines
6838-6861): indices `pIdx..3, 0..pIdx-1` when the cell owns the opposite
face, `pIdx..0, 3..pIdx+1` otherwise. -/
def hexOppPoints (oppPts : List ℤ) (isOwner : Bool) (pIdx : ℕ) : List ℤ :=
  if isOwner then
    (List.range' pIdx (4 - pIdx) ++ List.range pIdx).map (fun i => oppPts.getD i 0)
  else
    ((List.range (pIdx + 1)).reverse ++ (List.range' (pIdx + 1) (3 - pIdx)).reverse).map
      (fun i => oppPts.getD i 0)

/-- The eight point ids of the inserted VTK_HEXAHEDRON (line 6864). -/
def insertHexCell (m : FoamMesh) (cellId : ℤ) (cellFaces : List ℕ) : List ℤ :=
  hexBasePts m cellId cellFaces ++
    hexOppPoints (getFace m (hexOppFaceId m cellId cellFaces))
      (m.faceOwner (hexOppFaceId m cellId cellFaces) = cellId)
      (hexPivotIdx m cellId cellFaces)

/-! ### Wedge construction (lines 6866-7040) -/

/-- The duplicated-point scan over one quad face of a wedge (lines 6921-6938):
`true` when base point 0 was matched, `false` when base point 2 was matched
(or, per the source comment, never — then the index is 4). -/
def wedgeScanDupAux (b0 b2 : ℤ) (fp : List ℤ) : ℕ → ℕ → Bool × ℕ
  | 0, i => (false, i)
  | fuel + 1, i =>
    let p := fp.getD i 0
    if b0 = p then (true, i)
    else if b2 = p then (false, i)
    else wedgeScanDupAux b0 b2 fp fuel (i + 1)

/-- First face of size 3 among the five (lines 6871-6879); 0 if none. -/
def wedgeBaseFaceId (m : FoamMesh) (cellFaces : List ℕ) : ℕ :=
  match cellFaces.findIdx? (fun fi => faceSize m fi = 3) with
  | some j => j
  | none => 0

/-- Wedge base points (lines 6885-6901): kept in order for an owner face,
flipped (`2-j`) for a neighbour face. -/
def wedgeBasePts (m : FoamMesh) (cellId : ℤ) (cellFaces : List ℕ) : List ℤ :=
  let f0 := getFace m (cellFaces.getD (wedgeBaseFaceId m cellFaces) 0)
  if m.faceOwner (cellFaces.getD (wedgeBaseFaceId m cellFaces) 0) = cellId then
    [f0.getD 0 0, f0.getD 1 0, f0.getD 2 0]
  else
    [f0.getD 2 0, f0.getD 1 0, f0.getD 0 0]

/-- The wedge search loop over the five faces (lines 6905-6975), skipping the
base face. State: `(cellOppositeFaceI, pivotPoint, dupPoint2)`. -/
def wedgeFindLoop (m : FoamMesh) (cellId : ℤ) (cellFaces : List ℕ)
    (baseFaceId : ℕ) (basePts : List ℤ) : List ℕ → ℤ × ℤ × Bool → ℤ × ℤ × Bool
  | [], st => st
  | faceI :: restIdx, (opp, pivot, dup2) =>
    if faceI = baseFaceId then
      wedgeFindLoop m cellId cellFaces baseFaceId basePts restIdx (opp, pivot, dup2)
    else
      let cellFaceI := cellFaces.getD faceI 0
      let st' :=
        if faceSize m cellFaceI = 3 then ((cellFaceI : ℤ), pivot, dup2)
        else if pivot = -1 then
          let fp := getFace m cellFaceI
          let scan := wedgeScanDupAux (basePts.getD 0 0) (basePts.getD 2 0) fp 4 0
          let found0 := scan.1
          let pointI := scan.2
          let basePrev := if found0 then basePts.getD 2 0 else basePts.getD 1 0
          let baseNext := if found0 then basePts.getD 1 0 else basePts.getD 0 0
          let dup2' := if found0 then dup2 else true
          let faceINext := fp.getD ((pointI + 1) % 4) 0
          let faceIPrev := fp.getD ((3 + pointI) % 4) 0
          let pivot' :=
            if faceINext = (if m.faceOwner cellFaceI = cellId then basePrev else baseNext)
            then faceIPrev else faceINext
          (opp, pivot', dup2')
        else (opp, pivot, dup2)
      if 0 ≤ st'.1 ∧ 0 ≤ st'.2.1 then st'
      else wedgeFindLoop m cellId cellFaces baseFaceId basePts restIdx st'

/-- The six wedge points, or `none` when the pivot is not found in the
opposite face (lines 6978-7039): in the latter case the cell is reprocessed
as a polyhedron. -/
def insertWedgeCell (m : FoamMesh) (cellId : ℤ) (cellFaces : List ℕ) :
    Option (List ℤ) :=
  let baseFaceId := wedgeBaseFaceId m cellFaces
  let basePts := wedgeBasePts m cellId cellFaces
  let st := wedgeFindLoop m cellId cellFaces baseFaceId basePts [0, 1, 2, 3, 4]
    (-1, -1, false)
  let oppPts := getFace m st.1.toNat
  let rawIdx := findPivotIdxAux oppPts st.2.1 3 0
  if rawIdx ≠ 3 then
    if m.faceOwner st.1.toNat = cellId then
      let pIdx := if st.2.2 then (rawIdx + 2) % 3 else rawIdx
      some (basePts ++
        (((List.range (pIdx + 1)).reverse ++ (List.range' (pIdx + 1) (2 - pIdx)).reverse).map
          (fun i => oppPts.getD i 0)))
    else
      let pIdx := if st.2.2 then (1 + rawIdx) % 3 else rawIdx
      some (basePts ++
        ((List.range' pIdx (3 - pIdx) ++ List.range pIdx).map (fun i => oppPts.getD i 0)))
  else none

/-! ### Pyramid and tetrahedron construction (lines 7044-7117) -/

/-- The apex search (lines 7075-7092): the loop records each adjacent-face
point and breaks at the first one absent from the base face; when all are
present the last one remains. -/
def findApexAux (basePts : List ℤ) : List ℤ → ℤ → ℤ
  | [], apex => apex
  | p :: rest, _ => if basePts.contains p then findApexAux basePts rest p else p

/-- Point ids of a VTK_PYRAMID or VTK_TETRA cell (lines 7045-7116): the base
face (flipped when owned) followed by the apex. -/
def insertPyrTetCell (m : FoamMesh) (cellId : ℤ) (cellFaces : List ℕ)
    (isPyramid : Bool) : List ℤ :=
  let baseFaceId :=
    if isPyramid then
      match cellFaces.findIdx? (fun fi => faceSize m fi = 4) with
      | some j => j
      | none => 0
    else 0
  let cellBaseFaceId := cellFaces.getD baseFaceId 0
  let basePts := getFace m cellBaseFaceId
  let adjacentFaceId := if baseFaceId ≠ 0 then 0 else 1
  let adjPts := getFace m (cellFaces.getD adjacentFaceId 0)
  let apex := findApexAux basePts adjPts (adjPts.getD 0 0)
  (if m.faceOwner cellBaseFaceId = cellId then basePts.reverse else basePts) ++ [apex]

/-! ### Polyhedron construction, non-decomposed branch (lines 7286-7387)

`maxNPoints = 256` (line 6581) and `maxNPolyPoints = 1024` (line 6586) bound
the scratch arrays; every overflow check issues "Too large polyhedron" and
`return`s from `InsertCellsToGrid`, aborting the remaining cells. `none`
models that `return`. -/

/-- One face point (lines 7352-7381): dedup against the cell points so far,
then append to the face stream. -/
def polyAddPoint (cellPts polyPts : List ℤ) (p : ℤ) : Option (List ℤ × List ℤ) :=
  let foundDup := cellPts.contains p
  if ¬foundDup ∧ cellPts.length ≥ 256 then none
  else
    let cellPts' := if foundDup then cellPts else cellPts ++ [p]
    if polyPts.length ≥ 1024 then none
    else some (cellPts', polyPts ++ [p])

def polyAddFacePoints (pts : List ℤ) (cellPts polyPts : List ℤ) :
    Option (List ℤ × List ℤ) :=
  match pts with
  | [] => some (cellPts, polyPts)
  | p :: rest =>
    match polyAddPoint cellPts polyPts p with
    | none => none
    | some (c', q') => polyAddFacePoints rest c' q'

/-- One non-base face (lines 7327-7381): push the face size onto the stream,
then its points in owner order or flipped. -/
def polyAddFace (m : FoamMesh) (cellId : ℤ) (cellPts polyPts : List ℤ)
    (fid : ℕ) : Option (List ℤ × List ℤ) :=
  if polyPts.length ≥ 1024 then none
  else
    let fp := getFace m fid
    let ordered := if m.faceOwner fid = cellId then fp else fp.reverse
    polyAddFacePoints ordered cellPts (polyPts ++ [(fp.length : ℤ)])

def polyAddFaces (m : FoamMesh) (cellId : ℤ) : List ℕ → List ℤ → List ℤ →
    Option (List ℤ × List ℤ)
  | [], cellPts, polyPts => some (cellPts, polyPts)
  | fid :: rest, cellPts, polyPts =>
    match polyAddFace m cellId cellPts polyPts fid with
    | none => none
    | some (c', q') => polyAddFaces m cellId rest c' q'

/-- The whole non-decomposed polyhedron insertion; `none` is the aborting
`return` of any "Too large polyhedron" check. -/
def insertPolyCell (m : FoamMesh) (cellId : ℤ) (cellFaces : List ℕ) :
    Option InsertedCell :=
  let f0id := cellFaces.getD 0 0
  let basePts := getFace m f0id
  if basePts.length > 256 ∨ basePts.length + 1 > 1024 then none
  else
    let cellPts0 := if m.faceOwner f0id = cellId then basePts else basePts.reverse
    match polyAddFaces m cellId (cellFaces.drop 1) cellPts0
        ((basePts.length : ℤ) :: cellPts0) with
    | none => none
    | some (cellPts, polyPts) => some ⟨VTK_POLYHEDRON, cellPts, some polyPts⟩

/-! ### The per-cell body and the cell loop (lines 6573-7390) -/

/-- One iteration of `InsertCellsToGrid`'s cell loop for `cellList == nullptr`
and `additionalCells == nullptr`: classification, then the matching
construction; `none` is the aborting `return`. A wedge whose pivot search
fails is reclassified VTK_POLYHEDRON (lines 7033-7038) and handled by the
polyhedron block (line 7128). -/
def insertCellsToGridStep (m : FoamMesh) (cellId : ℕ) : Option InsertedCell :=
  let cellFaces := m.meshCells.getD cellId []
  match cellShapeType m cellFaces with
  | VTK_HEXAHEDRON => some ⟨VTK_HEXAHEDRON, insertHexCell m (cellId : ℤ) cellFaces, none⟩
  | VTK_WEDGE =>
    match insertWedgeCell m (cellId : ℤ) cellFaces with
    | some pts => some ⟨VTK_WEDGE, pts, none⟩
    | none => insertPolyCell m (cellId : ℤ) cellFaces
  | VTK_PYRAMID => some ⟨VTK_PYRAMID, insertPyrTetCell m (cellId : ℤ) cellFaces true, none⟩
  | VTK_TETRA => some ⟨VTK_TETRA, insertPyrTetCell m (cellId : ℤ) cellFaces false, none⟩
  | VTK_EMPTY_CELL => some ⟨VTK_EMPTY_CELL, [], none⟩
  | VTK_POLYHEDRON => insertPolyCell m (cellId : ℤ) cellFaces

/-- The cell loop: a `none` step (a `return;` in the source) stops the whole
function, dropping every remaining cell; the Bool records the abort. -/
def insertCellsAux (m : FoamMesh) : List ℕ → List InsertedCell →
    List InsertedCell × Bool
  | [], acc => (acc, false)
  | i :: rest, acc =>
    match insertCellsToGridStep m i with
    | some cell => insertCellsAux m rest (acc ++ [cell])
    | none => (acc, true)

def InsertCellsToGrid (m : FoamMesh) : List InsertedCell × Bool :=
  insertCellsAux m (List.range m.meshCells.length) []

/-- Decomposition of an index range at the first aborting cell. -/
theorem rangeSplitAt (n c : ℕ) (h : c < n) :
    List.range n = List.range c ++ c :: List.range' (c + 1) (n - c - 1) := by
  rw [List.range_eq_range' n, List.range_eq_range' c]
  have h2 : n = (n - c - 1 + 1) + c := by omega
  rw [h2, ← List.range'_append 0 c (n - c - 1 + 1) 1]
  simp [List.range'_succ]

theorem insertCellsAux_abort (m : FoamMesh) (c : ℕ)
    (hc : insertCellsToGridStep m c = none) (l1 : List ℕ) :
    ∀ (l2 : List ℕ) (acc : List InsertedCell),
      (∀ i ∈ l1, (insertCellsToGridStep m i).isSome) →
      insertCellsAux m (l1 ++ c :: l2) acc =
        (acc ++ l1.map
          (fun i => (insertCellsToGridStep m i).getD ⟨VTK_EMPTY_CELL, [], none⟩), true) := by
  induction l1 with
  | nil => intro l2 acc _; simp [insertCellsAux, hc]
  | cons i l1' ih =>
    intro l2 acc h
    have hi : (insertCellsToGridStep m i).isSome := h i (List.mem_cons_self i l1')
    obtain ⟨cell, hcell⟩ := Option.isSome_iff_exists.mp hi
    have hstep : insertCellsAux m ((i :: l1') ++ c :: l2) acc
        = insertCellsAux m (l1' ++ c :: l2) (acc ++ [cell]) := by
      simp [insertCellsAux, hcell]
    rw [hstep, ih l2 (acc ++ [cell]) (fun j hj => h j (List.mem_cons_of_mem i hj))]
    simp [hcell]

/-- A two-cell mesh: cell 0 is bounded by the single face 0 with 257 points
(over the 256-vertex limit), cell 1 by the single triangular face 1. -/
def demoPolyMesh : FoamMesh :=
  ⟨[(List.range 257).map (fun i => (i : ℤ)), [0, 1, 2]], fun f => (f : ℤ), [[0], [1]]⟩

set_option maxRecDepth 16384 in
/-- C5 (counterexample): cell 1 of `demoPolyMesh` is well within every size
limit and, processed alone, yields a VTK_POLYHEDRON cell — yet
`InsertCellsToGrid` inserts nothing at all, because cell 0's 257-point face
trips the `nPoints > maxNPoints` check whose handler is `return;`
(lines 7294-7299): the error aborts the whole function, not just cell 0. -/
theorem InsertCellsToGrid_oversized_aborts_remaining :
    insertCellsToGridStep demoPolyMesh 1 =
      some ⟨VTK_POLYHEDRON, [0, 1, 2], some [3, 0, 1, 2]⟩ ∧
    insertCellsToGridStep demoPolyMesh 0 = none ∧
    InsertCellsToGrid demoPolyMesh = ([], true) := by
  refine ⟨by decide, by decide, by decide⟩

/-- C5 (amended): when cell `c` is the first cell to trip a size-limit check
(its step is `none`, every earlier step succeeds), `InsertCellsToGrid`
returns exactly the cells inserted before `c` and the aborted flag: every
cell from `c` on — not just cell `c` — is dropped. -/
theorem InsertCellsToGrid_abort_prefix (m : FoamMesh) (c : ℕ)
    (hc : c < m.meshCells.length)
    (hok : ∀ i, i < c → (insertCellsToGridStep m i).isSome)
    (herr : insertCellsToGridStep m c = none) :
    InsertCellsToGrid m =
      ((List.range c).map
        (fun i => (insertCellsToGridStep m i).getD ⟨VTK_EMPTY_CELL, [], none⟩), true) := by
  unfold InsertCellsToGrid
  rw [rangeSplitAt m.meshCells.length c hc,
    insertCellsAux_abort m c herr (List.range c) (List.range' (c + 1)
      (m.meshCells.length - c - 1)) [] (fun i hi => hok i (List.mem_range.mp hi))]
  simp

set_option maxRecDepth 16384 in
theorem InsertCellsToGrid_abort_prefix_witness :
    (0 < demoPolyMesh.meshCells.length ∧ insertCellsToGridStep demoPolyMesh 0 = none) ∧
    InsertCellsToGrid demoPolyMesh = ([], true) :=
  ⟨⟨by decide, by decide⟩,
    InsertCellsToGrid_abort_prefix demoPolyMesh 0 (by decide)
      (fun i hi => absurd hi (Nat.not_lt_zero i)) (by decide)⟩

/-! ### The hexahedron path, verified (C7) -/

/-- Forward rotation of a face-point list starting at index `i`
(the owner-side copy direction). -/
def rotateFwd (l : List ℤ) (i : ℕ) : List ℤ := l.drop i ++ l.take i

/-- Reverse rotation starting at index `i` and walking backwards
(the neighbour-side copy direction). -/
def rotateRev (l : List ℤ) (i : ℕ) : List ℤ :=
  (l.take (i + 1)).reverse ++ (l.drop (i + 1)).reverse

/-- The spec's description of the eight hexahedron points: the base face,
reversed exactly when the cell owns it, then the opposite face rotated from
the pivot position, forwards when owned and backwards otherwise. -/
def hexSpecPoints (m : FoamMesh) (cellId : ℤ) (cellFaces : List ℕ) : List ℤ :=
  (if m.faceOwner (cellFaces.getD 0 0) = cellId
   then (getFace m (cellFaces.getD 0 0)).reverse
   else getFace m (cellFaces.getD 0 0)) ++
  (if m.faceOwner (hexOppFaceId m cellId cellFaces) = cellId
   then rotateFwd (getFace m (hexOppFaceId m cellId cellFaces)) (hexPivotIdx m cellId cellFaces)
   else rotateRev (getFace m (hexOppFaceId m cellId cellFaces)) (hexPivotIdx m cellId cellFaces))

theorem getDMem (l : List ℕ) (i : ℕ) (h : i < l.length) : l.getD i 0 ∈ l := by
  rw [List.getD_eq_getElem l 0 h]
  exact List.getElem_mem h

theorem listLenFour {α : Type} {l : List α} (h : l.length = 4) :
    ∃ a b c d, l = [a, b, c, d] := by
  rcases l with _ | ⟨a, l⟩
  · simp at h
  rcases l with _ | ⟨b, l⟩
  · simp at h
  rcases l with _ | ⟨c, l⟩
  · simp at h
  rcases l with _ | ⟨d, l⟩
  · simp at h
  rcases l with _ | ⟨e, l⟩
  · exact ⟨a, b, c, d, rfl⟩
  · simp at h

theorem hexBasePts_eq (m : FoamMesh) (cellId : ℤ) (cellFaces : List ℕ)
    (h : (getFace m (cellFaces.getD 0 0)).length = 4) :
    hexBasePts m cellId cellFaces =
      if m.faceOwner (cellFaces.getD 0 0) = cellId
      then (getFace m (cellFaces.getD 0 0)).reverse
      else getFace m (cellFaces.getD 0 0) := by
  obtain ⟨a, b, c, d, hf⟩ := listLenFour h
  simp only [hexBasePts, hf]
  by_cases ho : m.faceOwner (cellFaces.getD 0 0) = cellId
  · rw [if_pos ho, if_pos ho]
    rfl
  · rw [if_neg ho, if_neg ho]
    rfl

theorem hexOppPoints_eq_rotate (l : List ℤ) (hl : l.length = 4) (own : Bool)
    (i : ℕ) (hi : i < 4) :
    hexOppPoints l own i = if own then rotateFwd l i else rotateRev l i := by
  obtain ⟨a, b, c, d, hf⟩ := listLenFour hl
  subst hf
  interval_cases i <;> cases own <;> rfl

theorem hexFindLoop_opp_mem (m : FoamMesh) (cellId : ℤ) (cellFaces : List ℕ)
    (basePts : List ℤ) (b0 b2 : ℤ) (idxs : List ℕ) :
    ∀ st : ℤ × ℤ × ℤ,
      (∀ j ∈ idxs, j < cellFaces.length) →
      (st.1 = -1 ∨ ∃ fi ∈ cellFaces, (fi : ℤ) = st.1) →
      ((hexFindLoop m cellId cellFaces basePts b0 b2 idxs st).1 = -1 ∨
        ∃ fi ∈ cellFaces,
          (fi : ℤ) = (hexFindLoop m cellId cellFaces basePts b0 b2 idxs st).1) := by
  induction idxs with
  | nil => intro st _ hst; exact hst
  | cons j rest ih =>
    intro st hj hst
    obtain ⟨opp, pivot, dup⟩ := st
    have hmem : cellFaces.getD j 0 ∈ cellFaces := getDMem _ _ (hj j (List.mem_cons_self j rest))
    have hrest : ∀ k ∈ rest, k < cellFaces.length :=
      fun k hk => hj k (List.mem_cons_of_mem j hk)
    simp only [hexFindLoop]
    split_ifs with h1 h2 h3 h4 <;>
      first
        | exact hst
        | exact Or.inr ⟨cellFaces.getD j 0, hmem, rfl⟩
        | exact ih _ hrest hst
        | exact ih _ hrest (Or.inr ⟨cellFaces.getD j 0, hmem, rfl⟩)

theorem hexOppFaceId_mem (m : FoamMesh) (cellId : ℤ) (cellFaces : List ℕ)
    (h6 : cellFaces.length = 6) :
    hexOppFaceId m cellId cellFaces ∈ cellFaces := by
  have h := hexFindLoop_opp_mem m cellId cellFaces (hexBasePts m cellId cellFaces)
    ((hexBasePts m cellId cellFaces).getD 0 0) ((hexBasePts m cellId cellFaces).getD 2 0)
    [1, 2, 3, 4] (-1, -1, -1)
    (by intro j hj; fin_cases hj <;> omega) (Or.inl rfl)
  have hls : hexFindLoop m cellId cellFaces (hexBasePts m cellId cellFaces)
      ((hexBasePts m cellId cellFaces).getD 0 0) ((hexBasePts m cellId cellFaces).getD 2 0)
      [1, 2, 3, 4] (-1, -1, -1) = hexLoopState m cellId cellFaces := rfl
  rw [hls] at h
  unfold hexOppFaceId
  rcases h with h | ⟨fi, hfi, hfieq⟩
  · rw [if_pos h]
    exact getDMem _ _ (by omega)
  · have hne : ¬(hexLoopState m cellId cellFaces).1 = -1 := by omega
    rw [if_neg hne, ← hfieq, Int.toNat_natCast]
    exact hfi

theorem cellShapeType_hex (m : FoamMesh) (cellFaces : List ℕ)
    (h6 : cellFaces.length = 6)
    (hquad : ∀ fi ∈ cellFaces, (getFace m fi).length = 4) :
    cellShapeType m cellFaces = VTK_HEXAHEDRON := by
  have hall : cellFaces.all (fun fi => faceSize m fi = 4) = true := by
    rw [List.all_eq_true]
    intro fi hfi
    simp only [faceSize, decide_eq_true_eq]
    exact hquad fi hfi
  simp [cellShapeType, h6, hall]

/-- C7: a cell with exactly 6 faces of exactly 4 vertices each is classified
VTK_HEXAHEDRON, and — whenever the pivot search succeeds in the opposite face
— the inserted cell is exactly one VTK_HEXAHEDRON with 8 point ids: the base
face's 4 vertices, reversed precisely when the cell owns that face, followed
by the opposite face's 4 vertices rotated from the pivot position, forwards
when the cell owns the opposite face and backwards otherwise; such a cell is
never inserted as a polyhedron. -/
theorem InsertCellsToGrid_hexahedron (m : FoamMesh) (cellId : ℕ)
    (cellFaces : List ℕ)
    (hcf : m.meshCells.getD cellId [] = cellFaces)
    (h6 : cellFaces.length = 6)
    (hquad : ∀ fi ∈ cellFaces, (getFace m fi).length = 4)
    (hpiv : hexPivotRawIdx m (cellId : ℤ) cellFaces < 4) :
    cellShapeType m cellFaces = VTK_HEXAHEDRON ∧
    insertCellsToGridStep m cellId =
      some ⟨VTK_HEXAHEDRON, hexSpecPoints m (cellId : ℤ) cellFaces, none⟩ ∧
    (hexSpecPoints m (cellId : ℤ) cellFaces).length = 8 := by
  have hclass := cellShapeType_hex m cellFaces h6 hquad
  have h0len : (getFace m (cellFaces.getD 0 0)).length = 4 :=
    hquad _ (getDMem _ _ (by omega))
  have hoppmem := hexOppFaceId_mem m (cellId : ℤ) cellFaces h6
  have hopplen : (getFace m (hexOppFaceId m (cellId : ℤ) cellFaces)).length = 4 :=
    hquad _ hoppmem
  have hpidx : hexPivotIdx m (cellId : ℤ) cellFaces < 4 := by
    unfold hexPivotIdx
    split_ifs
    · exact Nat.mod_lt _ (by omega)
    · exact hpiv
  have hpts : insertHexCell m (cellId : ℤ) cellFaces
      = hexSpecPoints m (cellId : ℤ) cellFaces := by
    unfold insertHexCell hexSpecPoints
    rw [hexBasePts_eq m _ cellFaces h0len, hexOppPoints_eq_rotate _ hopplen _ _ hpidx]
    by_cases ho : m.faceOwner (hexOppFaceId m (cellId : ℤ) cellFaces) = (cellId : ℤ) <;>
      simp [ho]
  refine ⟨hclass, ?_, ?_⟩
  · simp only [insertCellsToGridStep, hcf, hclass, hpts]
  · unfold hexSpecPoints
    rw [List.length_append]
    have l1 : (if m.faceOwner (cellFaces.getD 0 0) = (cellId : ℤ)
        then (getFace m (cellFaces.getD 0 0)).reverse
        else getFace m (cellFaces.getD 0 0)).length = 4 := by
      split_ifs
      · rw [List.length_reverse]
        exact h0len
      · exact h0len
    have l2 : (if m.faceOwner (hexOppFaceId m (cellId : ℤ) cellFaces) = (cellId : ℤ)
        then rotateFwd (getFace m (hexOppFaceId m (cellId : ℤ) cellFaces))
          (hexPivotIdx m (cellId : ℤ) cellFaces)
        else rotateRev (getFace m (hexOppFaceId m (cellId : ℤ) cellFaces))
          (hexPivotIdx m (cellId : ℤ) cellFaces)).length = 4 := by
      split_ifs <;> · simp [rotateFwd, rotateRev, hopplen]; omega
    omega

/-- A single-cell hexahedral mesh (a cube): six quadrilateral faces, the
cell owning all of them. -/
def demoHexMesh : FoamMesh :=
  ⟨[[0, 4, 7, 3], [1, 2, 6, 5], [0, 1, 5, 4], [2, 3, 7, 6], [0, 3, 2, 1], [4, 5, 6, 7]],
    fun _ => 0, [[0, 1, 2, 3, 4, 5]]⟩

theorem InsertCellsToGrid_hexahedron_witness :
    (demoHexMesh.meshCells.getD 0 [] = [0, 1, 2, 3, 4, 5] ∧
      ([0, 1, 2, 3, 4, 5] : List ℕ).length = 6 ∧
      (∀ fi ∈ ([0, 1, 2, 3, 4, 5] : List ℕ), (getFace demoHexMesh fi).length = 4) ∧
      hexPivotRawIdx demoHexMesh ((0 : ℕ) : ℤ) [0, 1, 2, 3, 4, 5] < 4) ∧
    (cellShapeType demoHexMesh [0, 1, 2, 3, 4, 5] = VTK_HEXAHEDRON ∧
      insertCellsToGridStep demoHexMesh 0 =
        some ⟨VTK_HEXAHEDRON, hexSpecPoints demoHexMesh ((0 : ℕ) : ℤ) [0, 1, 2, 3, 4, 5],
          none⟩ ∧
      (hexSpecPoints demoHexMesh ((0 : ℕ) : ℤ) [0, 1, 2, 3, 4, 5]).length = 8) :=
  ⟨⟨rfl, by decide, by decide, by decide⟩,
    InsertCellsToGrid_hexahedron demoHexMesh 0 [0, 1, 2, 3, 4, 5] rfl (by decide)
      (by decide) (by decide)⟩

/-! ## Cell-to-face list construction
(`vtkOpenFOAMReaderPrivate::CreateCellFaces`, lines 6374-6537)

The CSR structure `vtkFoamLabelListList` is modelled by a total offset
function and a total data function (out-of-range slots are irrelevant and
default to 0). All three passes of the source traverse the faces in the same
order — internal faces contributing an owner then a neighbour event, boundary
faces an owner event — so that order is reified once as an event list. -/

def bumpAt (g : ℕ → ℕ) (i : ℕ) : ℕ → ℕ := fun j => if j = i then g j + 1 else g j

def setAt (g : ℕ → ℕ) (i v : ℕ) : ℕ → ℕ := fun j => if j = i then v else g j

/-- The `(label, face)` pairs in the order the passes visit them. -/
def cellFaceEvents (owner nei : ℕ → ℤ) (nFaces nInternal : ℕ) : List (ℤ × ℕ) :=
  (List.range nInternal).flatMap (fun f => [(owner f, f), (nei f, f)]) ++
    (List.range' nInternal (nFaces - nInternal)).map (fun f => (owner f, f))

/-- The `nCells` accumulation (lines 6390-6428): running maximum over the
nonnegative labels, starting from -1. -/
def maxLabelAcc (events : List (ℤ × ℕ)) : ℤ :=
  events.foldl (fun acc e => if 0 ≤ e.1 ∧ acc < e.1 then e.1 else acc) (-1)

/-- The per-cell face count pass (lines 6454-6479): each nonnegative label
increments the offset slot *above* its cell (`cellIndexOffset = 1`). -/
def countPass (events : List (ℤ × ℕ)) (off : ℕ → ℕ) : ℕ → ℕ :=
  events.foldl (fun o e => if 0 ≤ e.1 then bumpAt o (1 + e.1.toNat) else o) off

/-- The reduction of per-cell counts to start offsets (lines 6481-6488):
`for celli = 1..nCells: curr += off[celli]; off[celli] = curr`. -/
def prefixLoop (o : ℕ → ℕ) (curr : ℕ) : List ℕ → (ℕ → ℕ)
  | [] => o
  | c :: rest => prefixLoop (setAt o c (curr + o c)) (curr + o c) rest

/-- One write of the scatter pass (lines 6503-6536): read the cell's cursor
from the scratch offsets, bump it, store the face index at the old cursor. -/
def scatterStep (st : (ℕ → ℕ) × (ℕ → ℕ)) (e : ℤ × ℕ) : (ℕ → ℕ) × (ℕ → ℕ) :=
  if 0 ≤ e.1 then
    (bumpAt st.1 e.1.toNat, setAt st.2 (st.1 e.1.toNat) e.2)
  else st

def scatterPass (events : List (ℤ × ℕ)) (st : (ℕ → ℕ) × (ℕ → ℕ)) :
    (ℕ → ℕ) × (ℕ → ℕ) :=
  events.foldl scatterStep st

/-- `CreateCellFaces`: number of cells, the offsets array and the data array
of the resulting cell-to-face CSR list. -/
def CreateCellFaces (owner nei : ℕ → ℤ) (nFaces nInternal : ℕ) :
    ℕ × (ℕ → ℕ) × (ℕ → ℕ) :=
  let events := cellFaceEvents owner nei nFaces nInternal
  let nCells := (maxLabelAcc events + 1).toNat
  let o1 := countPass events (fun _ => 0)
  let offsets := prefixLoop o1 0 (List.range' 1 nCells)
  let scat := scatterPass events (offsets, fun _ => 0)
  (nCells, offsets, scat.2)

def NumCellsOf (owner nei : ℕ → ℤ) (nFaces nInternal : ℕ) : ℕ :=
  (CreateCellFaces owner nei nFaces nInternal).1

/-- `GetCell(c)` of the resulting CSR list: the data slots between offsets
`c` and `c+1`. -/
def cellFacesSublist (owner nei : ℕ → ℤ) (nFaces nInternal : ℕ) (c : ℕ) :
    List ℕ :=
  let r := CreateCellFaces owner nei nFaces nInternal
  (List.range' (r.2.1 c) (r.2.1 (c + 1) - r.2.1 c)).map r.2.2

/-- All owner labels plus all neighbour labels (the spec's "labels occurring
in the owner and neighbour arrays"). -/
def allCellLabels (owner nei : ℕ → ℤ) (nFaces nInternal : ℕ) : List ℤ :=
  (List.range nFaces).map owner ++ (List.range nInternal).map nei

def eventsFor (events : List (ℤ × ℕ)) (c : ℕ) : List (ℤ × ℕ) :=
  events.filter (fun e => e.1 = (c : ℤ))

def cntFor (events : List (ℤ × ℕ)) (c : ℕ) : ℕ := (eventsFor events c).length

def prefixCnt (events : List (ℤ × ℕ)) (c : ℕ) : ℕ :=
  ((List.range c).map (cntFor events)).sum

theorem maxLabelFoldGe (events : List (ℤ × ℕ)) :
    ∀ acc : ℤ, acc ≤
      events.foldl (fun acc e => if 0 ≤ e.1 ∧ acc < e.1 then e.1 else acc) acc := by
  induction events with
  | nil => intro acc; simp
  | cons e es ih =>
    intro acc
    rw [List.foldl_cons]
    refine le_trans ?_ (ih _)
    split_ifs with h
    · omega
    · omega

theorem maxLabelFoldBound (events : List (ℤ × ℕ)) :
    ∀ (acc : ℤ) (e : ℤ × ℕ), e ∈ events → 0 ≤ e.1 →
      e.1 ≤ events.foldl (fun acc e => if 0 ≤ e.1 ∧ acc < e.1 then e.1 else acc) acc := by
  induction events with
  | nil => intro acc e he; exact absurd he (List.not_mem_nil e)
  | cons e0 es ih =>
    intro acc e he hpos
    rw [List.foldl_cons]
    rcases List.mem_cons.mp he with he0 | hes
    · subst he0
      refine le_trans ?_ (maxLabelFoldGe es _)
      split_ifs with h
      · omega
      · omega
    · exact ih _ e hes hpos

theorem maxLabelFoldMem (events : List (ℤ × ℕ)) :
    ∀ acc : ℤ,
      events.foldl (fun acc e => if 0 ≤ e.1 ∧ acc < e.1 then e.1 else acc) acc = acc ∨
      ∃ e ∈ events,
        events.foldl (fun acc e => if 0 ≤ e.1 ∧ acc < e.1 then e.1 else acc) acc = e.1 := by
  induction events with
  | nil => intro acc; exact Or.inl rfl
  | cons e0 es ih =>
    intro acc
    rw [List.foldl_cons]
    split_ifs with h
    · rcases ih e0.1 with h1 | ⟨e, he, heq⟩
      · exact Or.inr ⟨e0, List.mem_cons_self e0 es, h1⟩
      · exact Or.inr ⟨e, List.mem_cons_of_mem e0 he, heq⟩
    · rcases ih acc with h1 | ⟨e, he, heq⟩
      · exact Or.inl h1
      · exact Or.inr ⟨e, List.mem_cons_of_mem e0 he, heq⟩

theorem countPass_spec (events : List (ℤ × ℕ)) :
    ∀ (off : ℕ → ℕ) (j : ℕ),
      countPass events off j =
        off j + (events.filter (fun e => 0 ≤ e.1 ∧ 1 + e.1.toNat = j)).length := by
  induction events with
  | nil => intro off j; simp [countPass]
  | cons e es ih =>
    intro off j
    rw [countPass, List.foldl_cons]
    by_cases h : 0 ≤ e.1
    · rw [if_pos h]
      have := ih (bumpAt off (1 + e.1.toNat)) j
      rw [countPass] at this
      rw [this]
      by_cases hj : j = 1 + e.1.toNat
      · subst hj
        rw [List.filter_cons, if_pos (by simp [h])]
        simp [bumpAt]
        omega
      · rw [List.filter_cons, if_neg (by simp [h]; omega)]
        simp [bumpAt, hj]
    · rw [if_neg h]
      have := ih off j
      rw [countPass] at this
      rw [this]
      rw [List.filter_cons, if_neg (by simp [h])]

theorem prefixLoop_spec :
    ∀ (n s : ℕ) (o : ℕ → ℕ) (curr : ℕ) (j : ℕ),
      prefixLoop o curr (List.range' s n) j =
        if s ≤ j ∧ j < s + n then curr + ((List.range' s (j + 1 - s)).map o).sum
        else o j := by
  intro n
  induction n with
  | zero =>
    intro s o curr j
    rw [if_neg (by omega)]
    rfl
  | succ n ih =>
    intro s o curr j
    rw [List.range'_succ]
    show prefixLoop (setAt o s (curr + o s)) (curr + o s) (List.range' (s + 1) n) j = _
    rw [ih (s + 1) (setAt o s (curr + o s)) (curr + o s) j]
    by_cases h1 : s + 1 ≤ j ∧ j < s + 1 + n
    · rw [if_pos h1, if_pos (by omega)]
      have hmap : (List.range' (s + 1) (j + 1 - (s + 1))).map (setAt o s (curr + o s)) =
          (List.range' (s + 1) (j - s)).map o := by
        have he : j + 1 - (s + 1) = j - s := by omega
        rw [he]
        apply List.map_congr_left
        intro k hk
        have hks : s + 1 ≤ k := (List.mem_range'_1.mp hk).1
        have : k ≠ s := by omega
        simp [setAt, this]
      rw [hmap]
      have hsplit : List.range' s (j + 1 - s) = s :: List.range' (s + 1) (j - s) := by
        have he : j + 1 - s = (j - s) + 1 := by omega
        rw [he, List.range'_succ]
      rw [hsplit]
      simp only [List.map_cons, List.sum_cons]
      omega
    · rw [if_neg h1]
      by_cases h2 : j = s
      · subst h2
        rw [if_pos (by omega)]
        have he : j + 1 - j = 1 := by omega
        rw [he]
        simp [setAt, List.range']
      · rw [if_neg (by omega)]
        simp [setAt, h2]

theorem eventsForCons (l : ℤ) (f : ℕ) (es : List (ℤ × ℕ)) (c : ℕ) (hl : 0 ≤ l) :
    eventsFor ((l, f) :: es) c =
      if c = l.toNat then (l, f) :: eventsFor es c else eventsFor es c := by
  unfold eventsFor
  rw [List.filter_cons]
  by_cases h : c = l.toNat
  · rw [if_pos (by simp; omega), if_pos h]
  · rw [if_neg (by simp; omega), if_neg h]

theorem cntForCons (l : ℤ) (f : ℕ) (es : List (ℤ × ℕ)) (c : ℕ) (hl : 0 ≤ l) :
    cntFor ((l, f) :: es) c = cntFor es c + (if c = l.toNat then 1 else 0) := by
  unfold cntFor
  rw [eventsForCons l f es c hl]
  split_ifs <;> simp

theorem scatterPass_spec (events : List (ℤ × ℕ)) :
    ∀ (tmp d : ℕ → ℕ),
      (∀ e ∈ events, 0 ≤ e.1) →
      (∀ c c' j, c ≠ c' →
        tmp c ≤ j → j < tmp c + cntFor events c →
        tmp c' ≤ j → j < tmp c' + cntFor events c' → False) →
      (∀ c, (scatterPass events (tmp, d)).1 c = tmp c + cntFor events c) ∧
      (∀ c k, k < cntFor events c →
        (scatterPass events (tmp, d)).2 (tmp c + k) =
          ((eventsFor events c).getD k (0, 0)).2) ∧
      (∀ j, (∀ c, ¬(tmp c ≤ j ∧ j < tmp c + cntFor events c)) →
        (scatterPass events (tmp, d)).2 j = d j) := by
  induction events with
  | nil =>
    intro tmp d _ _
    refine ⟨fun c => by simp [scatterPass, cntFor, eventsFor], ?_, ?_⟩
    · intro c k hk
      simp [cntFor, eventsFor] at hk
    · intro j _
      rfl
  | cons e es ih =>
    intro tmp d hpos hdisj
    obtain ⟨l, f⟩ := e
    have hl : 0 ≤ l := hpos (l, f) (List.mem_cons_self (l, f) es)
    have hpos' : ∀ e ∈ es, 0 ≤ e.1 := fun e he => hpos e (List.mem_cons_of_mem (l, f) he)
    have hcnt : ∀ c, cntFor ((l, f) :: es) c = cntFor es c + (if c = l.toNat then 1 else 0) :=
      fun c => cntForCons l f es c hl
    have hcnt0 : 1 ≤ cntFor ((l, f) :: es) l.toNat := by rw [hcnt]; simp
    have hstep : scatterPass ((l, f) :: es) (tmp, d) =
        scatterPass es (bumpAt tmp l.toNat, setAt d (tmp l.toNat) f) := by
      rw [scatterPass, List.foldl_cons, scatterStep, if_pos hl]
      rfl
    have hwin1 : ∀ c, bumpAt tmp l.toNat c + cntFor es c ≤ tmp c + cntFor ((l, f) :: es) c := by
      intro c
      rw [hcnt c]
      unfold bumpAt
      split_ifs <;> omega
    have hwin2 : ∀ c, tmp c ≤ bumpAt tmp l.toNat c := by
      intro c
      unfold bumpAt
      split_ifs <;> omega
    have hdisj' : ∀ c c' j, c ≠ c' →
        bumpAt tmp l.toNat c ≤ j → j < bumpAt tmp l.toNat c + cntFor es c →
        bumpAt tmp l.toNat c' ≤ j → j < bumpAt tmp l.toNat c' + cntFor es c' → False := by
      intro c c' j hne h1 h2 h3 h4
      exact hdisj c c' j hne (le_trans (hwin2 c) h1) (lt_of_lt_of_le h2 (hwin1 c))
        (le_trans (hwin2 c') h3) (lt_of_lt_of_le h4 (hwin1 c'))
    obtain ⟨ih1, ih2, ih3⟩ := ih (bumpAt tmp l.toNat) (setAt d (tmp l.toNat) f) hpos' hdisj'
    rw [hstep]
    refine ⟨?_, ?_, ?_⟩
    · intro c
      rw [ih1 c, hcnt c]
      unfold bumpAt
      split_ifs <;> omega
    · intro c k hk
      by_cases hc : c = l.toNat
      · subst hc
        match k with
        | 0 =>
          have houtside : ∀ c', ¬(bumpAt tmp l.toNat c' ≤ tmp l.toNat ∧
              tmp l.toNat < bumpAt tmp l.toNat c' + cntFor es c') := by
            intro c'
            by_cases hcc : c' = l.toNat
            · subst hcc
              unfold bumpAt
              rw [if_pos rfl]
              omega
            · rintro ⟨ha, hb⟩
              have hb' : bumpAt tmp l.toNat c' = tmp c' := by
                unfold bumpAt
                rw [if_neg hcc]
              rw [hb'] at ha hb
              exact hdisj l.toNat c' (tmp l.toNat) (fun h => hcc h.symm)
                (le_refl _) (by omega) ha
                (lt_of_lt_of_le hb (by rw [hcnt c']; omega))
          have hd := ih3 (tmp l.toNat) houtside
          have hpos0 : tmp l.toNat + 0 = tmp l.toNat := by omega
          rw [hpos0, hd]
          rw [eventsForCons l f es l.toNat hl, if_pos rfl]
          simp [setAt]
        | k' + 1 =>
          have hk' : k' < cntFor es l.toNat := by
            rw [hcnt l.toNat] at hk
            simp at hk
            omega
          have := ih2 l.toNat k' hk'
          have hpe : bumpAt tmp l.toNat l.toNat + k' = tmp l.toNat + (k' + 1) := by
            unfold bumpAt
            rw [if_pos rfl]
            omega
          rw [hpe] at this
          rw [this, eventsForCons l f es l.toNat hl, if_pos rfl]
          rfl
      · have hk' : k < cntFor es c := by
          rw [hcnt c] at hk
          rw [if_neg hc] at hk
          omega
        have := ih2 c k hk'
        have hpe : bumpAt tmp l.toNat c = tmp c := by
          unfold bumpAt
          rw [if_neg hc]
        rw [hpe] at this
        rw [this, eventsForCons l f es c hl, if_neg hc]
    · intro j hj
      have hj' : ∀ c, ¬(bumpAt tmp l.toNat c ≤ j ∧ j < bumpAt tmp l.toNat c + cntFor es c) := by
        rintro c ⟨ha, hb⟩
        exact hj c ⟨le_trans (hwin2 c) ha, lt_of_lt_of_le hb (hwin1 c)⟩
      rw [ih3 j hj']
      have hne : j ≠ tmp l.toNat := by
        intro hjeq
        exact hj l.toNat ⟨by omega, by omega⟩
      simp [setAt, hne]

theorem mem_cellFaceEvents (owner nei : ℕ → ℤ) (nFaces nInternal : ℕ)
    (hmn : nInternal ≤ nFaces) (l : ℤ) (f : ℕ) :
    (l, f) ∈ cellFaceEvents owner nei nFaces nInternal ↔
      (f < nInternal ∧ (l = owner f ∨ l = nei f)) ∨
      (nInternal ≤ f ∧ f < nFaces ∧ l = owner f) := by
  unfold cellFaceEvents
  simp only [List.mem_append, List.mem_flatMap, List.mem_range, List.mem_map,
    List.mem_range'_1, List.mem_cons, List.not_mem_nil, or_false, Prod.mk.injEq]
  constructor
  · rintro (⟨a, ha, (⟨h1, h2⟩ | ⟨h1, h2⟩)⟩ | ⟨a, ⟨ha1, ha2⟩, h1, h2⟩)
    · subst h2; exact Or.inl ⟨ha, Or.inl h1⟩
    · subst h2; exact Or.inl ⟨ha, Or.inr h1⟩
    · subst h2; exact Or.inr ⟨ha1, by omega, h1.symm⟩
  · rintro (⟨hf, (h1 | h1)⟩ | ⟨hf1, hf2, h1⟩)
    · exact Or.inl ⟨f, hf, Or.inl ⟨h1, rfl⟩⟩
    · exact Or.inl ⟨f, hf, Or.inr ⟨h1, rfl⟩⟩
    · exact Or.inr ⟨f, ⟨hf1, by omega⟩, h1.symm, rfl⟩

theorem prefixCnt_succ (events : List (ℤ × ℕ)) (c : ℕ) :
    prefixCnt events (c + 1) = prefixCnt events c + cntFor events c := by
  simp [prefixCnt, List.range_succ]

theorem prefixCnt_mono (events : List (ℤ × ℕ)) {a b : ℕ} (h : a ≤ b) :
    prefixCnt events a ≤ prefixCnt events b := by
  induction b with
  | zero =>
    have : a = 0 := by omega
    subst this
    exact le_refl _
  | succ b ih =>
    by_cases hab : a = b + 1
    · subst hab; exact le_refl _
    · have := ih (by omega)
      rw [prefixCnt_succ]
      omega

theorem countPass_zero_at (events : List (ℤ × ℕ)) (k : ℕ)
    (hpos : ∀ e ∈ events, 0 ≤ e.1) :
    countPass events (fun _ => 0) (1 + k) = cntFor events k := by
  rw [countPass_spec]
  unfold cntFor eventsFor
  have : events.filter (fun e => 0 ≤ e.1 ∧ 1 + e.1.toNat = 1 + k) =
      events.filter (fun e => e.1 = (k : ℤ)) := by
    apply List.filter_congr
    intro e he
    have := hpos e he
    simp only [decide_eq_decide]
    omega
  rw [this]
  omega

theorem countPass_zero_zero (events : List (ℤ × ℕ)) :
    countPass events (fun _ => 0) 0 = 0 := by
  rw [countPass_spec]
  rw [List.filter_eq_nil_iff.mpr ?_]
  · rfl
  · intro e _
    simp only [decide_eq_true_eq, not_and]
    intro _
    omega

theorem offsets_eq_prefixCnt (events : List (ℤ × ℕ)) (nCells : ℕ)
    (hpos : ∀ e ∈ events, 0 ≤ e.1) :
    ∀ c, c ≤ nCells →
      prefixLoop (countPass events (fun _ => 0)) 0 (List.range' 1 nCells) c =
        prefixCnt events c := by
  intro c hc
  rw [prefixLoop_spec]
  by_cases h1 : 1 ≤ c
  · rw [if_pos (by omega)]
    have he : c + 1 - 1 = c := by omega
    rw [he, List.range'_eq_map_range, List.map_map]
    have hcong : (List.range c).map (countPass events (fun _ => 0) ∘ (1 + ·)) =
        (List.range c).map (cntFor events) := by
      apply List.map_congr_left
      intro k _
      exact countPass_zero_at events k hpos
    rw [hcong]
    simp [prefixCnt]
  · have hc0 : c = 0 := by omega
    subst hc0
    rw [if_neg (by omega)]
    rw [countPass_zero_zero]
    simp [prefixCnt]

theorem event_owner_mem (owner nei : ℕ → ℤ) (nFaces nInternal : ℕ)
    (hmn : nInternal ≤ nFaces) (f : ℕ) (hf : f < nFaces) :
    (owner f, f) ∈ cellFaceEvents owner nei nFaces nInternal := by
  rw [mem_cellFaceEvents owner nei nFaces nInternal hmn]
  by_cases h : f < nInternal
  · exact Or.inl ⟨h, Or.inl rfl⟩
  · exact Or.inr ⟨by omega, hf, rfl⟩

theorem event_nei_mem (owner nei : ℕ → ℤ) (nFaces nInternal : ℕ)
    (hmn : nInternal ≤ nFaces) (f : ℕ) (hf : f < nInternal) :
    (nei f, f) ∈ cellFaceEvents owner nei nFaces nInternal := by
  rw [mem_cellFaceEvents owner nei nFaces nInternal hmn]
  exact Or.inl ⟨hf, Or.inr rfl⟩

theorem cellFaceEvents_pos (owner nei : ℕ → ℤ) (nFaces nInternal : ℕ)
    (hmn : nInternal ≤ nFaces)
    (hown : ∀ f, f < nFaces → 0 ≤ owner f)
    (hnei : ∀ f, f < nInternal → 0 ≤ nei f) :
    ∀ e ∈ cellFaceEvents owner nei nFaces nInternal, 0 ≤ e.1 := by
  rintro ⟨l, f⟩ he
  rcases (mem_cellFaceEvents owner nei nFaces nInternal hmn l f).mp he with
    ⟨hf, (h1 | h1)⟩ | ⟨_, hf, h1⟩
  · subst h1; exact hown f (by omega)
  · subst h1; exact hnei f hf
  · subst h1; exact hown f hf

theorem mem_allCellLabels (owner nei : ℕ → ℤ) (nFaces nInternal : ℕ) (x : ℤ) :
    x ∈ allCellLabels owner nei nFaces nInternal ↔
      (∃ f, f < nFaces ∧ owner f = x) ∨ (∃ f, f < nInternal ∧ nei f = x) := by
  simp [allCellLabels, List.mem_append, List.mem_map, List.mem_range]

theorem maxLabelAcc_spec (owner nei : ℕ → ℤ) (nFaces nInternal : ℕ)
    (hmn : nInternal ≤ nFaces) (h0 : 0 < nFaces)
    (hown : ∀ f, f < nFaces → 0 ≤ owner f)
    (hnei : ∀ f, f < nInternal → 0 ≤ nei f) :
    0 ≤ maxLabelAcc (cellFaceEvents owner nei nFaces nInternal) ∧
    (∃ e ∈ cellFaceEvents owner nei nFaces nInternal,
      maxLabelAcc (cellFaceEvents owner nei nFaces nInternal) = e.1) ∧
    (∀ e ∈ cellFaceEvents owner nei nFaces nInternal,
      e.1 ≤ maxLabelAcc (cellFaceEvents owner nei nFaces nInternal)) := by
  have hpos := cellFaceEvents_pos owner nei nFaces nInternal hmn hown hnei
  have hub : ∀ e ∈ cellFaceEvents owner nei nFaces nInternal,
      e.1 ≤ maxLabelAcc (cellFaceEvents owner nei nFaces nInternal) :=
    fun e he => maxLabelFoldBound _ (-1) e he (hpos e he)
  have h00 : (owner 0, 0) ∈ cellFaceEvents owner nei nFaces nInternal :=
    event_owner_mem owner nei nFaces nInternal hmn 0 h0
  have hmem : ∃ e ∈ cellFaceEvents owner nei nFaces nInternal,
      maxLabelAcc (cellFaceEvents owner nei nFaces nInternal) = e.1 := by
    rcases maxLabelFoldMem (cellFaceEvents owner nei nFaces nInternal) (-1) with h | h
    · exfalso
      have := hub (owner 0, 0) h00
      have h0own := hown 0 h0
      have h' : maxLabelAcc (cellFaceEvents owner nei nFaces nInternal) = -1 := h
      rw [h'] at this
      omega
    · exact h
  obtain ⟨e, he, heq⟩ := hmem
  exact ⟨heq ▸ hpos e he, ⟨e, he, heq⟩, hub⟩

theorem allCellLabels_maximum (owner nei : ℕ → ℤ) (nFaces nInternal : ℕ)
    (hmn : nInternal ≤ nFaces) (h0 : 0 < nFaces)
    (hown : ∀ f, f < nFaces → 0 ≤ owner f)
    (hnei : ∀ f, f < nInternal → 0 ≤ nei f) :
    (allCellLabels owner nei nFaces nInternal).maximum =
      (maxLabelAcc (cellFaceEvents owner nei nFaces nInternal) : WithBot ℤ) := by
  obtain ⟨hge, ⟨e, he, heq⟩, hub⟩ :=
    maxLabelAcc_spec owner nei nFaces nInternal hmn h0 hown hnei
  rw [List.maximum_eq_coe_iff]
  constructor
  · obtain ⟨l, f⟩ := e
    rcases (mem_cellFaceEvents owner nei nFaces nInternal hmn l f).mp he with
      ⟨hf, (h1 | h1)⟩ | ⟨_, hf, h1⟩
    · rw [mem_allCellLabels]
      exact Or.inl ⟨f, by omega, by rw [← h1]; exact heq.symm⟩
    · rw [mem_allCellLabels]
      exact Or.inr ⟨f, hf, by rw [← h1]; exact heq.symm⟩
    · rw [mem_allCellLabels]
      exact Or.inl ⟨f, hf, by rw [← h1]; exact heq.symm⟩
  · intro x hx
    rcases (mem_allCellLabels owner nei nFaces nInternal x).mp hx with
      ⟨f, hf, hx1⟩ | ⟨f, hf, hx1⟩
    · subst hx1
      exact hub (owner f, f) (event_owner_mem owner nei nFaces nInternal hmn f hf)
    · subst hx1
      exact hub (nei f, f) (event_nei_mem owner nei nFaces nInternal hmn f hf)

theorem cntFor_eq_zero_of_ge (events : List (ℤ × ℕ)) (mx : ℤ)
    (hub : ∀ e ∈ events, e.1 ≤ mx) (c : ℕ) (hc : mx < (c : ℤ)) :
    cntFor events c = 0 := by
  have hnil : eventsFor events c = [] := by
    unfold eventsFor
    apply List.filter_eq_nil_iff.mpr
    intro e he
    have := hub e he
    simp only [decide_eq_true_eq]
    omega
  unfold cntFor
  rw [hnil]
  rfl

theorem sumMapAdd (l : List ℕ) (g h : ℕ → ℕ) :
    (l.map (fun x => g x + h x)).sum = (l.map g).sum + (l.map h).sum := by
  induction l with
  | nil => rfl
  | cons x xs ih => simp [ih]; omega

theorem sumIndRangeGen (c0 v : ℕ) :
    ∀ n : ℕ, ((List.range n).map (fun c => if c = c0 then v else 0)).sum =
      if c0 < n then v else 0 := by
  intro n
  induction n with
  | zero => simp
  | succ n ih =>
    rw [List.range_succ, List.map_append, List.sum_append, ih]
    simp only [List.map_cons, List.map_nil, List.sum_cons, List.sum_nil]
    split_ifs <;> omega

theorem sumCountPLabel (events : List (ℤ × ℕ)) :
    ∀ (n : ℕ) (f : ℕ),
      (∀ e ∈ events, 0 ≤ e.1 ∧ e.1.toNat < n) →
      ((List.range n).map
        (fun (c : ℕ) => events.countP (fun x => x.2 == f && x.1 = (c : ℤ)))).sum =
        events.countP (fun x => x.2 == f) := by
  induction events with
  | nil =>
    intro n f _
    simp
  | cons e es ih =>
    intro n f hb
    have hbe := hb e (List.mem_cons_self e es)
    have hbes : ∀ x ∈ es, 0 ≤ x.1 ∧ x.1.toNat < n :=
      fun x hx => hb x (List.mem_cons_of_mem e hx)
    have hmapeq : (List.range n).map
          (fun (c : ℕ) => (e :: es).countP (fun x => x.2 == f && x.1 = (c : ℤ))) =
        (List.range n).map
          (fun (c : ℕ) => es.countP (fun x => x.2 == f && x.1 = (c : ℤ)) +
            (if (e.2 == f && decide (e.1 = (c : ℤ))) = true then 1 else 0)) := by
      apply List.map_congr_left
      intro c _
      rw [List.countP_cons]
    rw [hmapeq, sumMapAdd, ih n f hbes, List.countP_cons]
    congr 1
    have hpt : ∀ c ∈ List.range n,
        (if (e.2 == f && decide (e.1 = (c : ℤ))) = true then 1 else 0) =
          (fun (c : ℕ) => if c = e.1.toNat then (if (e.2 == f) = true then 1 else 0) else 0) c := by
      intro c _
      by_cases hc : c = e.1.toNat
      · subst hc
        have hd : decide (e.1 = (e.1.toNat : ℤ)) = true := by
          simp only [decide_eq_true_eq]
          omega
        rw [hd]
        cases (e.2 == f) <;> simp
      · have hd : decide (e.1 = (c : ℤ)) = false := by
          simp only [decide_eq_false_iff_not]
          omega
        rw [hd]
        simp only [Bool.and_false]
        simp [hc]
    rw [List.map_congr_left hpt, sumIndRangeGen, if_pos hbe.2]

theorem countPFlatMap (mk : ℕ → List (ℤ × ℕ)) (p : ℤ × ℕ → Bool) :
    ∀ L : List ℕ, (L.flatMap mk).countP p = (L.map (fun g => (mk g).countP p)).sum := by
  intro L
  induction L with
  | nil => rfl
  | cons g L ih =>
    rw [List.flatMap_cons, List.countP_append, List.map_cons, List.sum_cons, ih]

theorem countEqRange' (f : ℕ) :
    ∀ (n s : ℕ), (List.range' s n).countP (fun g => g == f) =
      if s ≤ f ∧ f < s + n then 1 else 0 := by
  intro n
  induction n with
  | zero =>
    intro s
    rw [if_neg (by omega)]
    rfl
  | succ n ih =>
    intro s
    rw [List.range'_succ, List.countP_cons, ih (s + 1)]
    by_cases h : s = f
    · subst h
      have hb : (s == s) = true := beq_self_eq_true s
      rw [hb, if_pos rfl]
      split_ifs <;> omega
    · have hb : (s == f) = false := by simp [h]
      rw [hb, if_neg (fun hh => Bool.false_ne_true hh)]
      split_ifs <;> omega

theorem countP_snd_events (owner nei : ℕ → ℤ) (nFaces nInternal : ℕ)
    (hmn : nInternal ≤ nFaces) (f : ℕ) :
    (cellFaceEvents owner nei nFaces nInternal).countP (fun x => x.2 == f) =
      (if f < nInternal then 2 else 0) +
        (if nInternal ≤ f ∧ f < nFaces then 1 else 0) := by
  unfold cellFaceEvents
  rw [List.countP_append]
  congr 1
  · rw [countPFlatMap]
    have hper : ∀ g ∈ List.range nInternal,
        ([(owner g, g), (nei g, g)].countP (fun x => x.2 == f)) =
          (fun (g : ℕ) => if g = f then 2 else 0) g := by
      intro g _
      rw [List.countP_cons, List.countP_cons, List.countP_nil]
      by_cases h : g = f
      · subst h
        have hb : (g == g) = true := beq_self_eq_true g
        simp [hb]
      · have hb : (g == f) = false := by simp [h]
        simp [hb, h]
    rw [List.map_congr_left hper, sumIndRangeGen]
  · rw [List.countP_map]
    have : ((fun x => x.2 == f) ∘ fun (g : ℕ) => (owner g, g)) = (fun g => g == f) := rfl
    rw [this, countEqRange' f (nFaces - nInternal) nInternal]
    by_cases h : nInternal ≤ f ∧ f < nFaces
    · rw [if_pos (by omega), if_pos h]
    · rw [if_neg (by omega), if_neg h]

/-- C1: for owner/neighbour arrays accepted by the reader, `CreateCellFaces`
computes `NumCells` as one plus the maximum cell label, each cell's sublist
holds exactly the face indices owning or neighbouring it, and each internal
face index occurs twice / each boundary face index once across all
sublists. -/
theorem CreateCellFaces_spec (owner nei : ℕ → ℤ) (nFaces nInternal : ℕ)
    (hmn : nInternal ≤ nFaces) (h0 : 0 < nFaces)
    (hown : ∀ f, f < nFaces → 0 ≤ owner f)
    (hnei : ∀ f, f < nInternal → 0 ≤ nei f) :
    (allCellLabels owner nei nFaces nInternal).maximum =
      (((NumCellsOf owner nei nFaces nInternal : ℤ) - 1 : ℤ) : WithBot ℤ) ∧
    (∀ c, c < NumCellsOf owner nei nFaces nInternal → ∀ f : ℕ,
      (f ∈ cellFacesSublist owner nei nFaces nInternal c ↔
        f < nFaces ∧ (owner f = (c : ℤ) ∨ (f < nInternal ∧ nei f = (c : ℤ))))) ∧
    (∀ f, f < nFaces →
      ((List.range (NumCellsOf owner nei nFaces nInternal)).map
        (cellFacesSublist owner nei nFaces nInternal)).flatten.count f =
        if f < nInternal then 2 else 1) := by
  have hpos := cellFaceEvents_pos owner nei nFaces nInternal hmn hown hnei
  obtain ⟨hge, hmem, hub⟩ := maxLabelAcc_spec owner nei nFaces nInternal hmn h0 hown hnei
  have hnc : NumCellsOf owner nei nFaces nInternal =
      (maxLabelAcc (cellFaceEvents owner nei nFaces nInternal) + 1).toNat := rfl
  have hncZ : (NumCellsOf owner nei nFaces nInternal : ℤ) =
      maxLabelAcc (cellFaceEvents owner nei nFaces nInternal) + 1 := by
    rw [hnc]
    omega
  have hbound : ∀ e ∈ cellFaceEvents owner nei nFaces nInternal,
      0 ≤ e.1 ∧ e.1.toNat < NumCellsOf owner nei nFaces nInternal := by
    intro e he
    have h1 := hpos e he
    have h2 := hub e he
    refine ⟨h1, ?_⟩
    rw [hnc]
    omega
  have hcnt0 : ∀ c, NumCellsOf owner nei nFaces nInternal ≤ c →
      cntFor (cellFaceEvents owner nei nFaces nInternal) c = 0 := by
    intro c hc
    refine cntFor_eq_zero_of_ge (cellFaceEvents owner nei nFaces nInternal)
      (maxLabelAcc (cellFaceEvents owner nei nFaces nInternal)) hub c ?_
    have := hncZ
    omega
  have hoff : ∀ c, c ≤ NumCellsOf owner nei nFaces nInternal →
      (CreateCellFaces owner nei nFaces nInternal).2.1 c =
        prefixCnt (cellFaceEvents owner nei nFaces nInternal) c := by
    intro c hc
    exact offsets_eq_prefixCnt (cellFaceEvents owner nei nFaces nInternal)
      (NumCellsOf owner nei nFaces nInternal) hpos c hc
  have hdisj : ∀ c c' j, c ≠ c' →
      (CreateCellFaces owner nei nFaces nInternal).2.1 c ≤ j →
      j < (CreateCellFaces owner nei nFaces nInternal).2.1 c +
        cntFor (cellFaceEvents owner nei nFaces nInternal) c →
      (CreateCellFaces owner nei nFaces nInternal).2.1 c' ≤ j →
      j < (CreateCellFaces owner nei nFaces nInternal).2.1 c' +
        cntFor (cellFaceEvents owner nei nFaces nInternal) c' → False := by
    intro c c' j hne h1 h2 h3 h4
    have hcn : c < NumCellsOf owner nei nFaces nInternal := by
      by_contra hcge
      rw [hcnt0 c (by omega)] at h2
      omega
    have hcn' : c' < NumCellsOf owner nei nFaces nInternal := by
      by_contra hcge
      rw [hcnt0 c' (by omega)] at h4
      omega
    rcases Nat.lt_or_ge c c' with hlt | hge2
    · rw [hoff c (by omega)] at h1 h2
      rw [hoff c' (by omega)] at h3 h4
      have e3 : prefixCnt (cellFaceEvents owner nei nFaces nInternal) (c + 1) ≤
          prefixCnt (cellFaceEvents owner nei nFaces nInternal) c' :=
        prefixCnt_mono _ (by omega)
      have e4 := prefixCnt_succ (cellFaceEvents owner nei nFaces nInternal) c
      omega
    · have hlt' : c' < c := by omega
      rw [hoff c (by omega)] at h1 h2
      rw [hoff c' (by omega)] at h3 h4
      have e3 : prefixCnt (cellFaceEvents owner nei nFaces nInternal) (c' + 1) ≤
          prefixCnt (cellFaceEvents owner nei nFaces nInternal) c :=
        prefixCnt_mono _ (by omega)
      have e4 := prefixCnt_succ (cellFaceEvents owner nei nFaces nInternal) c'
      omega
  obtain ⟨hs1, hs2, hs3⟩ := scatterPass_spec (cellFaceEvents owner nei nFaces nInternal)
    (CreateCellFaces owner nei nFaces nInternal).2.1 (fun _ => 0) hpos hdisj
  have hDeq : (CreateCellFaces owner nei nFaces nInternal).2.2 =
      (scatterPass (cellFaceEvents owner nei nFaces nInternal)
        ((CreateCellFaces owner nei nFaces nInternal).2.1, fun _ => 0)).2 := rfl
  have hsub : ∀ c, c < NumCellsOf owner nei nFaces nInternal →
      cellFacesSublist owner nei nFaces nInternal c =
        (eventsFor (cellFaceEvents owner nei nFaces nInternal) c).map (fun e => e.2) := by
    intro c hc
    have hlen : (CreateCellFaces owner nei nFaces nInternal).2.1 (c + 1) -
        (CreateCellFaces owner nei nFaces nInternal).2.1 c =
          cntFor (cellFaceEvents owner nei nFaces nInternal) c := by
      rw [hoff c (by omega), hoff (c + 1) (by omega), prefixCnt_succ]
      omega
    have hraw : cellFacesSublist owner nei nFaces nInternal c =
        (List.range' ((CreateCellFaces owner nei nFaces nInternal).2.1 c)
          ((CreateCellFaces owner nei nFaces nInternal).2.1 (c + 1) -
            (CreateCellFaces owner nei nFaces nInternal).2.1 c)).map
          (CreateCellFaces owner nei nFaces nInternal).2.2 := rfl
    rw [hraw, hlen]
    apply List.ext_getElem
    · simp [cntFor]
    · intro k h1 h2
      rw [List.getElem_map, List.getElem_map, List.getElem_range'_1]
      have hk : k < cntFor (cellFaceEvents owner nei nFaces nInternal) c := by
        simpa using h1
      rw [hDeq, hs2 c k hk,
        List.getD_eq_getElem _ _ (by simpa [cntFor] using hk)]
  refine ⟨?_, ?_, ?_⟩
  · rw [allCellLabels_maximum owner nei nFaces nInternal hmn h0 hown hnei]
    have he : (NumCellsOf owner nei nFaces nInternal : ℤ) - 1 =
        maxLabelAcc (cellFaceEvents owner nei nFaces nInternal) := by omega
    rw [he]
  · intro c hc f
    rw [hsub c hc]
    constructor
    · intro hf
      obtain ⟨e, he, heq⟩ := List.mem_map.mp hf
      obtain ⟨hev', hlab⟩ := List.mem_filter.mp he
      obtain ⟨l, f'⟩ := e
      have hl : l = (c : ℤ) := by simpa using hlab
      have heq' : f' = f := heq
      subst heq'
      subst hl
      rcases (mem_cellFaceEvents owner nei nFaces nInternal hmn (c : ℤ) f').mp hev' with
        ⟨hfi, (h1 | h1)⟩ | ⟨_, hfF, h1⟩
      · exact ⟨by omega, Or.inl h1.symm⟩
      · exact ⟨by omega, Or.inr ⟨hfi, h1.symm⟩⟩
      · exact ⟨hfF, Or.inl h1.symm⟩
    · rintro ⟨hfF, hOr⟩
      apply List.mem_map.mpr
      refine ⟨((c : ℤ), f), ?_, rfl⟩
      apply List.mem_filter.mpr
      refine ⟨?_, by simp⟩
      apply (mem_cellFaceEvents owner nei nFaces nInternal hmn (c : ℤ) f).mpr
      rcases hOr with h1 | ⟨hfi, h1⟩
      · by_cases hfi : f < nInternal
        · exact Or.inl ⟨hfi, Or.inl h1.symm⟩
        · exact Or.inr ⟨by omega, hfF, h1.symm⟩
      · exact Or.inl ⟨hfi, Or.inr h1.symm⟩
  · intro f hfF
    have hmapc : (List.range (NumCellsOf owner nei nFaces nInternal)).map
        (cellFacesSublist owner nei nFaces nInternal) =
        (List.range (NumCellsOf owner nei nFaces nInternal)).map
          (fun c => (eventsFor (cellFaceEvents owner nei nFaces nInternal) c).map
            (fun e => e.2)) := by
      apply List.map_congr_left
      intro c hc
      exact hsub c (List.mem_range.mp hc)
    rw [hmapc]
    have hc1 : ∀ L : List (List ℕ),
        L.flatten.count f = (L.map (List.countP (fun x => x == f))).sum := by
      intro L
      show L.flatten.countP (fun x => x == f) =
        (L.map (List.countP (fun x => x == f))).sum
      exact List.countP_flatten _ _
    rw [hc1, List.map_map]
    have hinner : ∀ c ∈ List.range (NumCellsOf owner nei nFaces nInternal),
        (List.countP (fun x => x == f) ∘
          (fun c => (eventsFor (cellFaceEvents owner nei nFaces nInternal) c).map
            (fun e => e.2))) c =
        (fun (c : ℕ) => (cellFaceEvents owner nei nFaces nInternal).countP
          (fun x => x.2 == f && x.1 = (c : ℤ))) c := by
      intro c _
      simp only [Function.comp_apply]
      rw [List.countP_map]
      show (eventsFor (cellFaceEvents owner nei nFaces nInternal) c).countP
          ((fun x => x == f) ∘ (fun e => e.2)) = _
      unfold eventsFor
      rw [List.countP_filter]
      rfl
    rw [List.map_congr_left hinner,
      sumCountPLabel (cellFaceEvents owner nei nFaces nInternal)
        (NumCellsOf owner nei nFaces nInternal) f hbound,
      countP_snd_events owner nei nFaces nInternal hmn f]
    split_ifs <;> omega

/-- A three-face mesh: faces 0 and 1 owned by cell 0, face 2 by cell 1;
face 0 is internal with neighbour cell 1. -/
def wOwner : ℕ → ℤ := fun f => [0, 0, 1].getD f 0

def wNei : ℕ → ℤ := fun f => [1].getD f 0

theorem CreateCellFaces_spec_witness :
    ((1 : ℕ) ≤ 3 ∧ (0 : ℕ) < 3 ∧ (∀ f, f < 3 → 0 ≤ wOwner f) ∧
      (∀ f, f < 1 → 0 ≤ wNei f)) ∧
    ((allCellLabels wOwner wNei 3 1).maximum =
        (((NumCellsOf wOwner wNei 3 1 : ℤ) - 1 : ℤ) : WithBot ℤ) ∧
      (∀ c, c < NumCellsOf wOwner wNei 3 1 → ∀ f : ℕ,
        (f ∈ cellFacesSublist wOwner wNei 3 1 c ↔
          f < 3 ∧ (wOwner f = (c : ℤ) ∨ (f < 1 ∧ wNei f = (c : ℤ))))) ∧
      (∀ f, f < 3 →
        ((List.range (NumCellsOf wOwner wNei 3 1)).map
          (cellFacesSublist wOwner wNei 3 1)).flatten.count f =
          if f < 1 then 2 else 1)) :=
  ⟨⟨by decide, by decide, fun f hf => by interval_cases f <;> decide,
      fun f hf => by interval_cases f; decide⟩,
    CreateCellFaces_spec wOwner wNei 3 1 (by decide) (by decide)
      (fun f hf => by interval_cases f <;> decide)
      (fun f hf => by interval_cases f; decide)⟩
